import Mathlib

/-!
Shallow embedding of `programs/mango-v4/src/instructions/flash_loan3.rs`.

The file models the two entry points `flash_loan3_begin` and
`flash_loan3_end` over an explicit account store.  Account addresses
(pubkeys) are natural numbers; `u64` quantities are natural numbers;
the `I80F48` fixed-point values carried by banks and token positions
are modelled as exact rationals (the spec treats them as exact
numbers: "Fee = loan × fee_rate").  Fallible paths return an explicit
error value, and the two places where the Rust code can panic instead
of returning an error (slicing `ix.data[0..8]` and
`ix.accounts[len - 2*N..]`) are modelled by a distinct `panic` outcome.
-/

set_option maxRecDepth 4000

set_option allowUnsafeReducibility true in
attribute [semireducible] Rat.add Rat.sub Rat.mul Rat.inv Rat.ofScientific

deriving instance DecidableEq for Except

namespace FlashLoan3

/-- Account addresses (pubkeys) are modelled as natural numbers. -/
abbrev Key := Nat

/-- `u64::MAX`, the inactive sentinel stored in `flash_loan_vault_initial`. -/
def u64Max : Nat := 2 ^ 64 - 1

/-- The state of an SPL token account, as read through
`Account::<TokenAccount>::try_from`: its authority (`owner`) and its
balance (`amount`). -/
structure TokenAccountState where
  owner : Key
  amount : Nat
  deriving DecidableEq

/-- The fields of a `Bank` record read or written by `flash_loan3.rs`. -/
structure Bank where
  group : Key
  vault : Key
  token_index : Nat
  flash_loan_approved_amount : Nat
  flash_loan_vault_initial : Nat
  loan_origination_fee_rate : Rat
  collected_fees_native : Rat
  deriving DecidableEq

/-- What an account in the account list can deserialize to: a `Bank`, a
token account, or something else (neither load succeeds). -/
inductive AccountData where
  | bank (b : Bank)
  | token (t : TokenAccountState)
  | other
  deriving DecidableEq

/-- One entry of the (remaining-)accounts list: an address plus the data
stored at it. -/
structure AccountInfo where
  key : Key
  data : AccountData
  deriving DecidableEq

/-- Modelled from the spec: a token position of a margin account, "a
signed native balance for one token type", with an active flag
(positions are "removed when balance returns to zero after settlement").
The `native(&bank)` conversion of the real code is opaque here: the
position directly stores its native balance. -/
structure TokenPosition where
  token_index : Nat
  native : Rat
  active : Bool
  deriving DecidableEq

/-- The fields of a `MangoAccount` used by `flash_loan3_end`: its group,
its owner (the signer authorizing the repayment transfer), the bankrupt
flag and the token positions. -/
structure MangoAccount where
  group : Key
  owner : Key
  is_bankrupt : Nat
  tokens : List TokenPosition
  deriving DecidableEq

/-- The error kinds distinguished by `flash_loan3.rs`; every other error
(`SomeError`, constraint violations, failed token-account parses, failed
transfers) is collapsed into `someError`. -/
inductive MangoError where
  | someError
  | isBankrupt
  | healthMustBePositive
  deriving DecidableEq

/-- `HealthType` of the solvency oracle; `flash_loan3_end` always uses
`init`. -/
inductive HealthType where
  | init
  | maint
  deriving DecidableEq

/-- One instruction of the surrounding transaction, as read back through
the instructions sysvar: target program, referenced account addresses,
and opaque payload bytes. -/
structure Instruction where
  program_id : Key
  accounts : List Key
  data : List Nat
  deriving DecidableEq

/-- The 8-byte selector of the `FlashLoan3End` instruction
(line 125 of `flash_loan3.rs`). -/
def flash_loan3_end_selector : List Nat := [163, 231, 155, 56, 201, 68, 84, 148]

/-- Outcome of the batch-shape verification: success, a returned error,
or a Rust panic (out-of-bounds slice). -/
inductive BRes where
  | ok
  | err
  | panic
  deriving DecidableEq

/-- The per-instruction checks applied to a later instruction whose
program id equals the mango program id (lines 123-134): the leading
8 bytes of its payload must be the `FlashLoan3End` selector, and its
trailing `bA.length` referenced accounts must equal `bA` (the vaults
followed by the caller token accounts of Begin).  Slicing a payload
shorter than 8 bytes, or an account list shorter than `bA.length`,
panics in the Rust code. -/
def checkEndIx (bA : List Key) (ix : Instruction) : BRes :=
  if ix.data.length < 8 then .panic
  else if ix.data.take 8 ≠ flash_loan3_end_selector then .err
  else if ix.accounts.length < bA.length then .panic
  else if ix.accounts.drop (ix.accounts.length - bA.length) ≠ bA then .err
  else .ok

/-- The scan over the instructions following the current one
(lines 107-143): at most one later instruction may target the mango
program (and it must pass `checkEndIx`), and no other instruction may
reference the mango program id among its accounts.  `found` records
whether the settlement instruction has already been seen. -/
def scan (mid : Key) (bA : List Key) : List Instruction → Bool → BRes
  | [], found => if found then .ok else .err
  | ix :: rest, found =>
    if ix.program_id = mid then
      if found then .err
      else
        match checkEndIx bA ix with
        | .ok => scan mid bA rest true
        | .err => .err
        | .panic => .panic
    else if mid ∈ ix.accounts then .err
    else scan mid bA rest found

/-- The batch-shape verification of `flash_loan3_begin` (lines 92-145):
load the top-level instruction at the current index (an out-of-range
index is a returned error), require it to target `pid`
(`*ctx.program_id`), then scan all following instructions. -/
def checkInstructions (mid pid : Key) (ixs : List Instruction) (ci : Nat)
    (bA : List Key) : BRes :=
  match ixs.get? ci with
  | none => .err
  | some cur => if cur.program_id = pid then scan mid bA (ixs.drop (ci + 1)) false else .err

/-- A vault-to-caller transfer performed by `flash_loan3_begin`
(source vault address, destination token-account address, amount). -/
structure Transfer where
  source : Key
  dest : Key
  amount : Nat
  deriving DecidableEq

/-- The per-loan loop of `flash_loan3_begin` (lines 62-90), in lockstep
over the bank / vault / token-account / amount lists: load the bank,
require `bank.group = g` and `bank.vault = vault.key`, parse the caller
token account, record the scratch fields (`flash_loan_approved_amount :=
amount`, `flash_loan_vault_initial :=` the caller token account's
balance, read before any transfer), and if the amount is positive
transfer it from the vault to the caller token account (the transfer
fails if the vault is not a token account owned by the group authority
or has insufficient balance).  Returns the updated three account lists
and the list of transfers performed. -/
def processLoans (g : Key) :
    List AccountInfo → List AccountInfo → List AccountInfo → List Nat →
    Except Unit (List AccountInfo × List AccountInfo × List AccountInfo × List Transfer)
  | [], [], [], [] => .ok ([], [], [], [])
  | bankAi :: bs, vaultAi :: vs, tokenAi :: tks, a :: amts =>
    match bankAi.data with
    | .bank b =>
      if b.group = g then
        if b.vault = vaultAi.key then
          match tokenAi.data with
          | .token t =>
            let bank' : AccountInfo :=
              ⟨bankAi.key, .bank { b with flash_loan_approved_amount := a,
                                          flash_loan_vault_initial := t.amount }⟩
            if 0 < a then
              match vaultAi.data with
              | .token v =>
                if v.owner = g then
                  if a ≤ v.amount then
                    match processLoans g bs vs tks amts with
                    | .ok (bs', vs', tks', log) =>
                      .ok (bank' :: bs',
                           ⟨vaultAi.key, .token { v with amount := v.amount - a }⟩ :: vs',
                           ⟨tokenAi.key, .token { t with amount := t.amount + a }⟩ :: tks',
                           ⟨vaultAi.key, tokenAi.key, a⟩ :: log)
                    | .error e => .error e
                  else .error ()
                else .error ()
              | _ => .error ()
            else
              match processLoans g bs vs tks amts with
              | .ok (bs', vs', tks', log) =>
                .ok (bank' :: bs', vaultAi :: vs', tokenAi :: tks', log)
              | .error e => .error e
          | _ => .error ()
        else .error ()
      else .error ()
    | _ => .error ()
  | _, _, _, _ => .error ()

/-- Result of `flash_loan3_begin`: success (with the final remaining
accounts and the transfers performed), a returned error, or a panic from
the batch-shape verification. -/
inductive BeginOut where
  | ok (store : List AccountInfo) (transfers : List Transfer)
  | err
  | panic
  deriving DecidableEq

/-- `flash_loan3_begin` (lines 43-148): the remaining accounts must be
`3 * N` accounts (N banks, N vaults, N caller token accounts), the
per-loan loop runs first, then the batch-shape verification.  `g` is the
group address, `pid` is `*ctx.program_id`, `mid` is `crate::id()`. -/
def flash_loan3_begin (g pid mid : Key) (ixs : List Instruction) (ci : Nat)
    (remaining : List AccountInfo) (loan_amounts : List Nat) : BeginOut :=
  let n := loan_amounts.length
  if remaining.length = 3 * n then
    match processLoans g (remaining.take n) ((remaining.drop n).take n)
        (remaining.drop (2 * n)) loan_amounts with
    | .error _ => .err
    | .ok (bs, vs, tks, log) =>
      match checkInstructions mid pid ixs ci ((remaining.drop n).map (·.key)) with
      | .ok => .ok (bs ++ vs ++ tks) log
      | .err => .err
      | .panic => .panic
  else .err

/-- First index in a list satisfying a predicate (the shape of
`Iterator::position` / `find` used by `flash_loan3_end`). -/
def firstIdx {α : Type} (p : α → Bool) : List α → Option Nat
  | [] => none
  | x :: xs => if p x then some 0 else (firstIdx p xs).map (· + 1)

/-- The split-point predicate of `flash_loan3_end` (lines 163-174): the
account parses as a token account whose authority is the margin
account's group. -/
def isGroupToken (g : Key) (ai : AccountInfo) : Bool :=
  match ai.data with
  | .token t => t.owner == g
  | _ => false

/-- The index at which the vault segment starts: the first remaining
account that is a valid token account owned by the group. -/
def findVaultsIndex (g : Key) (remaining : List AccountInfo) : Option Nat :=
  firstIdx (isGroupToken g) remaining

/-- Modelled from the spec: `MangoAccount::tokens::get_mut_or_create`
("positions are created lazily (get-or-create)").  Returns the position
list (possibly extended by a fresh zero position) and the raw index of
the position for `ti`. -/
def get_mut_or_create (tokens : List TokenPosition) (ti : Nat) :
    List TokenPosition × Nat :=
  match firstIdx (fun p => p.active && p.token_index == ti) tokens with
  | some j => (tokens, j)
  | none => (tokens ++ [⟨ti, 0, true⟩], tokens.length)

/-- The transient `TokenVaultChange` record of `flash_loan3_end`
(lines 150-154). -/
structure TokenVaultChange where
  bank_index : Nat
  raw_token_index : Nat
  amount : Rat
  deriving DecidableEq

/-- The state threaded through the bank/vault matching loop of
`flash_loan3_end`: the margin account's positions, the vault segment,
the caller-token-account segment, the `vaults_with_banks` flags, and
the accumulated changes.  (Bank accounts are not mutated during this
loop, so the health prefix is not part of the threaded state.) -/
structure CollectState where
  tokens : List TokenPosition
  vaults : List AccountInfo
  tokenAccs : List AccountInfo
  flags : List Bool
  changes : List TokenVaultChange
  deriving DecidableEq

/-- The body of the matching loop for one successfully parsed bank at
health index `i` (lines 194-241): find the first vault whose address is
the bank's recorded vault (skip the bank if none), mark it claimed,
parse the caller token account at the same offset, require the loan to
be active (`flash_loan_vault_initial ≠ u64::MAX`), get-or-create the
token position, and compute the net change `-approved_amount` plus any
excess over the recorded initial balance, which is transferred back
from the caller token account into the vault (authorized by the account
owner). -/
def collectStep (ownerKey : Key) (i : Nat) (b : Bank) (st : CollectState) :
    Except MangoError CollectState :=
  match firstIdx (fun ai => ai.key == b.vault) st.vaults with
  | none => .ok st
  | some j =>
    let flags' := st.flags.set j true
    match st.tokenAccs.get? j with
    | some ⟨ck, .token t⟩ =>
      if b.flash_loan_vault_initial = u64Max then .error .someError
      else
        let tr := get_mut_or_create st.tokens b.token_index
        let change : Rat := -(b.flash_loan_approved_amount : Rat)
        if b.flash_loan_vault_initial < t.amount then
          if t.owner = ownerKey then
            let repay := t.amount - b.flash_loan_vault_initial
            match st.vaults.get? j with
            | some ⟨vk, .token v⟩ =>
              .ok ⟨tr.1,
                   st.vaults.set j ⟨vk, .token { v with amount := v.amount + repay }⟩,
                   st.tokenAccs.set j ⟨ck, .token { t with amount := t.amount - repay }⟩,
                   flags',
                   st.changes ++ [⟨i, tr.2, change + (repay : Rat)⟩]⟩
            | _ => .error .someError
          else .error .someError
        else
          .ok ⟨tr.1, st.vaults, st.tokenAccs, flags', st.changes ++ [⟨i, tr.2, change⟩]⟩
    | _ => .error .someError

/-- The matching loop of `flash_loan3_end` (lines 184-241): iterate over
the health prefix, stopping at the first account that does not parse as
a `Bank`. -/
def collectLoop (ownerKey : Key) :
    List AccountInfo → Nat → CollectState → Except MangoError CollectState
  | [], _, st => .ok st
  | ai :: rest, i, st =>
    match ai.data with
    | .bank b =>
      match collectStep ownerKey i b st with
      | .ok st' => collectLoop ownerKey rest (i + 1) st'
      | .error e => .error e
    | _ => .ok st

/-- `I80F48::max` specialised to the use on line 263, written as an
explicit conditional (definitionally equal to `max`, see
`ratMax_eq_max`). -/
def ratMax (a b : Rat) : Rat := if a ≤ b then b else a

/-- Applying one `TokenVaultChange` (lines 256-279): reload the bank,
read the position's native balance, compute the loan portion subject to
the origination fee, accrue the fee, apply `change - fee` to the
position (`change_without_fee`, which reports whether the position is
still active, modelled from the spec as balance ≠ 0), record the
position for deferred deactivation if not, and reset the bank's scratch
fields to inactive. -/
def applyStep (c : TokenVaultChange) (healths : List AccountInfo)
    (tokens : List TokenPosition) (deacts : List Nat) :
    Except MangoError (List AccountInfo × List TokenPosition × List Nat) :=
  match healths.get? c.bank_index with
  | some ⟨k, .bank b⟩ =>
    let pos := tokens.getD c.raw_token_index ⟨0, 0, false⟩
    let native := pos.native
    let approved : Rat := (b.flash_loan_approved_amount : Rat)
    let loan := if 0 < native then ratMax (approved - native) 0 else approved
    let fee := loan * b.loan_origination_fee_rate
    let newNative := native + (c.amount - fee)
    let b' : Bank := { b with collected_fees_native := b.collected_fees_native + fee,
                              flash_loan_approved_amount := 0,
                              flash_loan_vault_initial := u64Max }
    .ok (healths.set c.bank_index ⟨k, .bank b'⟩,
         tokens.set c.raw_token_index { pos with native := newNative },
         if newNative = 0 then deacts ++ [c.raw_token_index] else deacts)
  | _ => .error .someError

/-- The apply loop of `flash_loan3_end` (lines 254-279). -/
def applyLoop :
    List TokenVaultChange → List AccountInfo → List TokenPosition → List Nat →
    Except MangoError (List AccountInfo × List TokenPosition × List Nat)
  | [], healths, tokens, deacts => .ok (healths, tokens, deacts)
  | c :: cs, healths, tokens, deacts =>
    match applyStep c healths tokens deacts with
    | .ok (h2, t2, d2) => applyLoop cs h2 t2 d2
    | .error e => .error e

/-- Deferred deactivation (lines 287-290): mark each recorded position
inactive. -/
def deactivateAll (idxs : List Nat) (tokens : List TokenPosition) :
    List TokenPosition :=
  idxs.foldl (fun ts i =>
    match ts.get? i with
    | some p => ts.set i { p with active := false }
    | none => ts) tokens

/-- Everything `flash_loan3_end` does after locating the split point:
the matching loop, the `vaults_with_banks` check, the pre-settlement
health check (Init mode), the apply loop, the post-settlement health
check (Init mode, before any deactivation), and the deferred
deactivations. -/
def endAfterSplit (oracle : HealthType → MangoAccount → List AccountInfo → Rat)
    (acc : MangoAccount) (healths vaults tokenAccs : List AccountInfo) (vl : Nat) :
    Except MangoError (MangoAccount × List AccountInfo) :=
  match collectLoop acc.owner healths 0
      ⟨acc.tokens, vaults, tokenAccs, List.replicate vl false, []⟩ with
  | .error e => .error e
  | .ok st =>
    if st.flags.all (fun x => x) then
      if 0 ≤ oracle .init { acc with tokens := st.tokens } healths then
        match applyLoop st.changes healths st.tokens [] with
        | .error e => .error e
        | .ok (healths2, tokens2, deacts) =>
          if 0 ≤ oracle .init { acc with tokens := tokens2 } healths2 then
            .ok ({ acc with tokens := deactivateAll deacts tokens2 },
                 healths2 ++ st.vaults ++ st.tokenAccs)
          else .error .healthMustBePositive
      else .error .healthMustBePositive
    else .error .someError

/-- `flash_loan3_end` (lines 156-293): require the account not bankrupt,
locate the split point (error if no group-owned token account exists),
require the remainder to split evenly into vaults and caller token
accounts, then run the settlement.  The solvency oracle
(`compute_health_from_fixed_accounts`) is an opaque parameter. -/
def flash_loan3_end (oracle : HealthType → MangoAccount → List AccountInfo → Rat)
    (acc : MangoAccount) (remaining : List AccountInfo) :
    Except MangoError (MangoAccount × List AccountInfo) :=
  if acc.is_bankrupt ≠ 0 then .error .isBankrupt
  else
    match findVaultsIndex acc.group remaining with
    | none => .error .someError
    | some vi =>
      let vl := (remaining.length - vi) / 2
      if remaining.length = vi + 2 * vl then
        endAfterSplit oracle acc (remaining.take vi) ((remaining.drop vi).take vl)
          (remaining.drop (vi + vl)) vl
      else .error .someError

/-- The spec's invariant on a bank's scratch fields, following its words:
"either both inactive (`approved_amount = 0`, `vault_initial = sentinel`)
or both active". -/
abbrev scratchConsistent (b : Bank) : Prop :=
  (b.flash_loan_approved_amount = 0 ∧ b.flash_loan_vault_initial = u64Max) ∨
  (b.flash_loan_approved_amount ≠ 0 ∧ b.flash_loan_vault_initial ≠ u64Max)

/-! ## Helper lemmas: the batch-shape verification -/

theorem scan_nil_true (mid : Key) (bA : List Key) : scan mid bA [] true = .ok := rfl

theorem scan_nil_false (mid : Key) (bA : List Key) : scan mid bA [] false = .err := rfl

theorem scan_cons_true (mid : Key) (bA : List Key) (ix : Instruction)
    (rest : List Instruction) :
    scan mid bA (ix :: rest) true =
      if ix.program_id = mid then .err
      else if mid ∈ ix.accounts then .err
      else scan mid bA rest true := rfl

theorem scan_cons_false (mid : Key) (bA : List Key) (ix : Instruction)
    (rest : List Instruction) :
    scan mid bA (ix :: rest) false =
      if ix.program_id = mid then
        (match checkEndIx bA ix with
         | .ok => scan mid bA rest true
         | .err => .err
         | .panic => .panic)
      else if mid ∈ ix.accounts then .err
      else scan mid bA rest false := rfl

theorem checkEndIx_eq_ok (bA : List Key) (ix : Instruction) :
    checkEndIx bA ix = .ok ↔
      ix.data.take 8 = flash_loan3_end_selector ∧
      ix.accounts.drop (ix.accounts.length - bA.length) = bA := by
  unfold checkEndIx
  split_ifs with h1 h2 h3 h4
  · constructor
    · intro h; cases h
    · rintro ⟨hs, -⟩
      have := congrArg List.length hs
      simp [flash_loan3_end_selector] at this
      omega
  · constructor
    · intro h; cases h
    · rintro ⟨hs, -⟩; exact absurd hs h2
  · rw [not_not] at h2
    constructor
    · intro h; cases h
    · rintro ⟨-, ha⟩
      have := congrArg List.length ha
      simp at this
      omega
  · rw [not_not] at h2
    constructor
    · intro h; cases h
    · rintro ⟨-, ha⟩; exact absurd ha h4
  · rw [not_not] at h2; rw [not_not] at h4
    simp [h2, h4]

theorem scan_true_ok (mid : Key) (bA : List Key) (l : List Instruction) :
    scan mid bA l true = .ok ↔ ∀ j ∈ l, j.program_id ≠ mid ∧ mid ∉ j.accounts := by
  induction l with
  | nil => simp [scan_nil_true]
  | cons hd rest ih =>
    rw [scan_cons_true]
    by_cases h1 : hd.program_id = mid
    · simp only [if_pos h1]
      constructor
      · intro h; cases h
      · intro h; exact absurd h1 (h hd (by simp)).1
    · rw [if_neg h1]
      by_cases h2 : mid ∈ hd.accounts
      · rw [if_pos h2]
        constructor
        · intro h; cases h
        · intro h; exact absurd h2 (h hd (by simp)).2
      · rw [if_neg h2, ih]
        constructor
        · intro h j hj
          rcases List.mem_cons.mp hj with hh | hh
          · subst hh; exact ⟨h1, h2⟩
          · exact h j hh
        · intro h j hj; exact h j (by simp [hj])

theorem scan_false_ok (mid : Key) (bA : List Key) (l : List Instruction) :
    scan mid bA l false = .ok ↔
      ∃ l1 ix l2, l = l1 ++ ix :: l2 ∧
        (∀ j ∈ l1, j.program_id ≠ mid ∧ mid ∉ j.accounts) ∧
        ix.program_id = mid ∧
        ix.data.take 8 = flash_loan3_end_selector ∧
        ix.accounts.drop (ix.accounts.length - bA.length) = bA ∧
        (∀ j ∈ l2, j.program_id ≠ mid ∧ mid ∉ j.accounts) := by
  induction l with
  | nil =>
    rw [scan_nil_false]
    constructor
    · intro h; cases h
    · rintro ⟨l1, ix, l2, heq, -⟩; simp at heq
  | cons hd rest ih =>
    rw [scan_cons_false]
    by_cases h1 : hd.program_id = mid
    · rw [if_pos h1]
      rcases hc : checkEndIx bA hd with _ | _ | _
      · simp only [hc]
        rw [scan_true_ok]
        rcases (checkEndIx_eq_ok bA hd).mp hc with ⟨hsel, hacc⟩
        constructor
        · intro h; exact ⟨[], hd, rest, rfl, by simp, h1, hsel, hacc, h⟩
        · rintro ⟨l1, ix, l2, heq, hl1, hpid, hsel2, hacc2, hl2⟩
          cases l1 with
          | nil => cases heq; exact hl2
          | cons a l1t =>
            rw [List.cons_append] at heq
            cases heq
            exact absurd h1 (hl1 hd (by simp)).1
      · simp only [hc]
        constructor
        · intro h; cases h
        · rintro ⟨l1, ix, l2, heq, hl1, hpid, hsel2, hacc2, hl2⟩
          cases l1 with
          | nil =>
            cases heq
            have := (checkEndIx_eq_ok bA hd).mpr ⟨hsel2, hacc2⟩
            rw [hc] at this
            cases this
          | cons a l1t =>
            rw [List.cons_append] at heq
            cases heq
            exact absurd h1 (hl1 hd (by simp)).1
      · simp only [hc]
        constructor
        · intro h; cases h
        · rintro ⟨l1, ix, l2, heq, hl1, hpid, hsel2, hacc2, hl2⟩
          cases l1 with
          | nil =>
            cases heq
            have := (checkEndIx_eq_ok bA hd).mpr ⟨hsel2, hacc2⟩
            rw [hc] at this
            cases this
          | cons a l1t =>
            rw [List.cons_append] at heq
            cases heq
            exact absurd h1 (hl1 hd (by simp)).1
    · rw [if_neg h1]
      by_cases h2 : mid ∈ hd.accounts
      · rw [if_pos h2]
        constructor
        · intro h; cases h
        · rintro ⟨l1, ix, l2, heq, hl1, hpid, -, -, -⟩
          cases l1 with
          | nil => cases heq; exact absurd hpid h1
          | cons a l1t =>
            rw [List.cons_append] at heq
            cases heq
            exact absurd h2 (hl1 hd (by simp)).2
      · rw [if_neg h2, ih]
        constructor
        · rintro ⟨l1, ix, l2, heq, hl1, hpid, hsel, hacc, hl2⟩
          refine ⟨hd :: l1, ix, l2, ?_, ?_, hpid, hsel, hacc, hl2⟩
          · rw [heq, List.cons_append]
          · intro j hj
            rcases List.mem_cons.mp hj with hh | hh
            · subst hh; exact ⟨h1, h2⟩
            · exact hl1 j hh
        · rintro ⟨l1, ix, l2, heq, hl1, hpid, hsel, hacc, hl2⟩
          cases l1 with
          | nil => cases heq; exact absurd hpid h1
          | cons a l1t =>
            rw [List.cons_append] at heq
            cases heq
            exact ⟨l1t, ix, l2, rfl, fun j hj => hl1 j (by simp [hj]), hpid, hsel, hacc, hl2⟩

theorem checkInstructions_ok_iff (mid : Key) (ixs : List Instruction) (ci : Nat)
    (bA : List Key) :
    checkInstructions mid mid ixs ci bA = .ok ↔
      (∃ cur, ixs.get? ci = some cur ∧ cur.program_id = mid) ∧
      (∃ l1 ix l2, ixs.drop (ci + 1) = l1 ++ ix :: l2 ∧
        (∀ j ∈ l1, j.program_id ≠ mid ∧ mid ∉ j.accounts) ∧
        ix.program_id = mid ∧
        ix.data.take 8 = flash_loan3_end_selector ∧
        ix.accounts.drop (ix.accounts.length - bA.length) = bA ∧
        (∀ j ∈ l2, j.program_id ≠ mid ∧ mid ∉ j.accounts)) := by
  unfold checkInstructions
  rcases h : ixs.get? ci with _ | cur
  · constructor
    · intro hh; exact BRes.noConfusion hh
    · rintro ⟨⟨cur, hcur, -⟩, -⟩; cases hcur
  · dsimp only
    by_cases hp : cur.program_id = mid
    · rw [if_pos hp, scan_false_ok]
      constructor
      · intro hh; exact ⟨⟨cur, rfl, hp⟩, hh⟩
      · rintro ⟨-, hh⟩; exact hh
    · rw [if_neg hp]
      constructor
      · intro hh; cases hh
      · rintro ⟨⟨cur2, hcur2, hp2⟩, -⟩
        cases hcur2
        exact absurd hp2 hp

theorem scan_wrong_selector (mid : Key) (bA : List Key) (l1 : List Instruction)
    (ix : Instruction) (l2 : List Instruction)
    (h1 : ∀ j ∈ l1, j.program_id ≠ mid)
    (h2 : ix.program_id = mid) (h3 : 8 ≤ ix.data.length)
    (h4 : ix.data.take 8 ≠ flash_loan3_end_selector) :
    scan mid bA (l1 ++ ix :: l2) false = .err := by
  induction l1 with
  | nil =>
    rw [List.nil_append, scan_cons_false, if_pos h2]
    have hc : checkEndIx bA ix = .err := by
      unfold checkEndIx
      rw [if_neg (by omega), if_pos h4]
    rw [hc]
  | cons a l1t ih =>
    have ha := h1 a (by simp)
    rw [List.cons_append, scan_cons_false, if_neg ha]
    by_cases hm : mid ∈ a.accounts
    · rw [if_pos hm]
    · rw [if_neg hm]
      exact ih (fun j hj => h1 j (by simp [hj]))

/-! ## Helper lemmas: the Begin loan loop -/

theorem processLoans_cons_ok (g : Key) (bankAi vaultAi tokenAi : AccountInfo)
    (bs vs tks : List AccountInfo) (a : Nat) (amts : List Nat)
    (bs2 vs2 tks2 : List AccountInfo) (log : List Transfer)
    (h : processLoans g (bankAi :: bs) (vaultAi :: vs) (tokenAi :: tks) (a :: amts) =
      .ok (bs2, vs2, tks2, log)) :
    ∃ bk b tk t bs' vs' tks' log',
      bankAi = ⟨bk, .bank b⟩ ∧ b.group = g ∧ b.vault = vaultAi.key ∧
      tokenAi = ⟨tk, .token t⟩ ∧
      processLoans g bs vs tks amts = .ok (bs', vs', tks', log') ∧
      bs2 = ⟨bk, .bank { b with flash_loan_approved_amount := a,
                                flash_loan_vault_initial := t.amount }⟩ :: bs' ∧
      vs2.length = vs'.length + 1 ∧ tks2.length = tks'.length + 1 ∧
      ((0 < a ∧ log = ⟨vaultAi.key, tk, a⟩ :: log') ∨ (a = 0 ∧ log = log')) := by
  simp only [processLoans] at h
  rcases hbd : bankAi.data with b | tb | _
  · simp only [hbd] at h
    have hbeq : bankAi = ⟨bankAi.key, .bank b⟩ := by
      cases bankAi with
      | mk k d => dsimp only at hbd; rw [hbd]
    by_cases hg : b.group = g
    · rw [if_pos hg] at h
      by_cases hv : b.vault = vaultAi.key
      · rw [if_pos hv] at h
        rcases htd : tokenAi.data with _ | t | _
        · simp only [htd] at h; exact absurd h (by simp)
        · simp only [htd] at h
          have hteq : tokenAi = ⟨tokenAi.key, .token t⟩ := by
            cases tokenAi with
            | mk k d => dsimp only at htd; rw [htd]
          by_cases ha : 0 < a
          · rw [if_pos ha] at h
            rcases hvd : vaultAi.data with _ | v | _
            · simp only [hvd] at h; exact absurd h (by simp)
            · simp only [hvd] at h
              by_cases ho : v.owner = g
              · rw [if_pos ho] at h
                by_cases hle : a ≤ v.amount
                · rw [if_pos hle] at h
                  rcases hrec : processLoans g bs vs tks amts with e | ⟨bs', vs', tks', log'⟩
                  · rw [hrec] at h; exact absurd h (by simp)
                  · rw [hrec] at h
                    simp only [Except.ok.injEq, Prod.mk.injEq] at h
                    obtain ⟨h1, h2, h3, h4⟩ := h
                    exact ⟨bankAi.key, b, tokenAi.key, t, bs', vs', tks', log',
                      hbeq, hg, hv, hteq, rfl, h1.symm, by rw [← h2]; simp,
                      by rw [← h3]; simp, Or.inl ⟨ha, h4.symm⟩⟩
                · rw [if_neg hle] at h; exact absurd h (by simp)
              · rw [if_neg ho] at h; exact absurd h (by simp)
            · simp only [hvd] at h; exact absurd h (by simp)
          · rw [if_neg ha] at h
            rcases hrec : processLoans g bs vs tks amts with e | ⟨bs', vs', tks', log'⟩
            · rw [hrec] at h; exact absurd h (by simp)
            · rw [hrec] at h
              simp only [Except.ok.injEq, Prod.mk.injEq] at h
              obtain ⟨h1, h2, h3, h4⟩ := h
              exact ⟨bankAi.key, b, tokenAi.key, t, bs', vs', tks', log',
                hbeq, hg, hv, hteq, rfl, h1.symm, by rw [← h2]; simp,
                by rw [← h3]; simp, Or.inr ⟨Nat.eq_zero_of_not_pos ha, h4.symm⟩⟩
        · simp only [htd] at h; exact absurd h (by simp)
      · rw [if_neg hv] at h; exact absurd h (by simp)
    · rw [if_neg hg] at h; exact absurd h (by simp)
  · simp only [hbd] at h; exact absurd h (by simp)
  · simp only [hbd] at h; exact absurd h (by simp)

theorem processLoans_get (g : Key) (amts : List Nat) :
    ∀ (bs vs tks bs2 vs2 tks2 : List AccountInfo) (log : List Transfer),
      processLoans g bs vs tks amts = .ok (bs2, vs2, tks2, log) →
      ∀ i, i < amts.length →
        ∃ k b vai tk t,
          bs.get? i = some ⟨k, .bank b⟩ ∧ b.group = g ∧
          vs.get? i = some vai ∧ b.vault = vai.key ∧
          tks.get? i = some ⟨tk, .token t⟩ ∧
          bs2.get? i = some ⟨k, .bank { b with flash_loan_approved_amount := amts.getD i 0,
                                               flash_loan_vault_initial := t.amount }⟩ := by
  induction amts with
  | nil =>
    intro bs vs tks bs2 vs2 tks2 log h i hi
    exact absurd hi (by simp)
  | cons a amts ih =>
    intro bs vs tks bs2 vs2 tks2 log h i hi
    cases bs with
    | nil => cases vs <;> cases tks <;> simp [processLoans] at h
    | cons bankAi bs =>
      cases vs with
      | nil => cases tks <;> simp [processLoans] at h
      | cons vaultAi vs =>
        cases tks with
        | nil => simp [processLoans] at h
        | cons tokenAi tks =>
          obtain ⟨bk, b, tk, t, bs', vs', tks', log', hbeq, hg, hv, hteq, hrec, hbs2, -, -, -⟩ :=
            processLoans_cons_ok g bankAi vaultAi tokenAi bs vs tks a amts bs2 vs2 tks2 log h
          subst hbeq hteq hbs2
          cases i with
          | zero =>
            exact ⟨bk, b, vaultAi, tk, t, rfl, hg, rfl, hv, rfl, rfl⟩
          | succ i =>
            simp only [List.get?_cons_succ, List.getD_cons_succ]
            exact ih bs vs tks bs' vs' tks' log' hrec i (Nat.lt_of_succ_lt_succ hi)

theorem processLoans_log_length (g : Key) (amts : List Nat) :
    ∀ (bs vs tks bs2 vs2 tks2 : List AccountInfo) (log : List Transfer),
      processLoans g bs vs tks amts = .ok (bs2, vs2, tks2, log) →
      log.length = (amts.filter (fun a => 0 < a)).length := by
  induction amts with
  | nil =>
    intro bs vs tks bs2 vs2 tks2 log h
    cases bs <;> cases vs <;> cases tks <;> simp [processLoans] at h ⊢
    · exact h.2.2.2.symm ▸ rfl
  | cons a amts ih =>
    intro bs vs tks bs2 vs2 tks2 log h
    cases bs with
    | nil => cases vs <;> cases tks <;> simp [processLoans] at h
    | cons bankAi bs =>
      cases vs with
      | nil => cases tks <;> simp [processLoans] at h
      | cons vaultAi vs =>
        cases tks with
        | nil => simp [processLoans] at h
        | cons tokenAi tks =>
          obtain ⟨bk, b, tk, t, bs', vs', tks', log', -, -, -, -, hrec, -, -, -, hlog⟩ :=
            processLoans_cons_ok g bankAi vaultAi tokenAi bs vs tks a amts bs2 vs2 tks2 log h
          have hrest := ih bs vs tks bs' vs' tks' log' hrec
          rcases hlog with ⟨ha, hl⟩ | ⟨ha, hl⟩
          · subst hl
            simp [List.filter_cons, ha, hrest]
          · subst ha hl
            simp [List.filter_cons, hrest]

theorem processLoans_bs_length (g : Key) (amts : List Nat) :
    ∀ (bs vs tks bs2 vs2 tks2 : List AccountInfo) (log : List Transfer),
      processLoans g bs vs tks amts = .ok (bs2, vs2, tks2, log) →
      bs2.length = amts.length := by
  induction amts with
  | nil =>
    intro bs vs tks bs2 vs2 tks2 log h
    cases bs <;> cases vs <;> cases tks <;> simp [processLoans] at h ⊢
    · exact h.1.symm ▸ rfl
  | cons a amts ih =>
    intro bs vs tks bs2 vs2 tks2 log h
    cases bs with
    | nil => cases vs <;> cases tks <;> simp [processLoans] at h
    | cons bankAi bs =>
      cases vs with
      | nil => cases tks <;> simp [processLoans] at h
      | cons vaultAi vs =>
        cases tks with
        | nil => simp [processLoans] at h
        | cons tokenAi tks =>
          obtain ⟨bk, b, tk, t, bs', vs', tks', log', -, -, -, -, hrec, hbs2, -, -, -⟩ :=
            processLoans_cons_ok g bankAi vaultAi tokenAi bs vs tks a amts bs2 vs2 tks2 log h
          subst hbs2
          simpa using ih bs vs tks bs' vs' tks' log' hrec

theorem processLoans_mismatch (g : Key) (amts : List Nat)
    (bs vs tks : List AccountInfo) (i : Nat) (k : Key) (b : Bank) (vai : AccountInfo)
    (hi : i < amts.length)
    (hb : bs.get? i = some ⟨k, .bank b⟩) (hvai : vs.get? i = some vai)
    (hbad : b.group ≠ g ∨ b.vault ≠ vai.key) :
    processLoans g bs vs tks amts = .error () := by
  rcases hres : processLoans g bs vs tks amts with e | ⟨bs2, vs2, tks2, log⟩
  · cases e; rfl
  · exfalso
    obtain ⟨k2, b2, vai2, tk2, t2, hb2, hg2, hvai2, hv2, -, -⟩ :=
      processLoans_get g amts bs vs tks bs2 vs2 tks2 log hres i hi
    rw [hb] at hb2
    rw [hvai] at hvai2
    cases hb2
    cases hvai2
    rcases hbad with hbad | hbad
    · exact hbad hg2
    · exact hbad hv2

theorem get?_take_of_lt {α : Type} (l : List α) : ∀ (n i : Nat), i < n →
    (l.take n).get? i = l.get? i := by
  induction l with
  | nil => intro n i h; simp
  | cons x xs ih =>
    intro n i h
    cases n with
    | zero => omega
    | succ n =>
      cases i with
      | zero => simp
      | succ i => simpa using ih n i (by omega)

theorem get?_drop_add {α : Type} (l : List α) : ∀ (n i : Nat),
    (l.drop n).get? i = l.get? (n + i) := by
  induction l with
  | nil => intro n i; simp
  | cons x xs ih =>
    intro n i
    cases n with
    | zero => simp
    | succ n => rw [Nat.succ_add, List.drop_succ_cons, List.get?_cons_succ]; exact ih n i

theorem get?_append_left {α : Type} : ∀ (l1 l2 : List α) (i : Nat), i < l1.length →
    (l1 ++ l2).get? i = l1.get? i := by
  intro l1
  induction l1 with
  | nil => intro l2 i h; simp at h
  | cons x xs ih =>
    intro l2 i h
    cases i with
    | zero => simp
    | succ i => simpa using ih l2 i (by simp at h; omega)

theorem flash_loan3_begin_ok (g pid mid : Key) (ixs : List Instruction) (ci : Nat)
    (remaining : List AccountInfo) (amts : List Nat)
    (store : List AccountInfo) (log : List Transfer)
    (h : flash_loan3_begin g pid mid ixs ci remaining amts = .ok store log) :
    remaining.length = 3 * amts.length ∧
    ∃ bs2 vs2 tks2,
      processLoans g (remaining.take amts.length)
        ((remaining.drop amts.length).take amts.length)
        (remaining.drop (2 * amts.length)) amts = .ok (bs2, vs2, tks2, log) ∧
      store = bs2 ++ vs2 ++ tks2 ∧
      checkInstructions mid pid ixs ci ((remaining.drop amts.length).map (·.key)) = .ok := by
  simp only [flash_loan3_begin] at h
  by_cases hl : remaining.length = 3 * amts.length
  · rw [if_pos hl] at h
    rcases hp : processLoans g (remaining.take amts.length)
        ((remaining.drop amts.length).take amts.length)
        (remaining.drop (2 * amts.length)) amts with e | ⟨bs2, vs2, tks2, lg⟩
    · rw [hp] at h; exact absurd h (by simp)
    · rw [hp] at h
      rcases hc : checkInstructions mid pid ixs ci ((remaining.drop amts.length).map (·.key))
        with _ | _ | _ <;> simp only [hc] at h
      · cases h
        exact ⟨hl, bs2, vs2, tks2, rfl, rfl, hc⟩
      · cases h
      · cases h
  · rw [if_neg hl] at h
    cases h

/-! ## C1 -/

/-- C1 (amended): the batch-shape verification of `flash_loan3_begin`
succeeds if and only if the top-level instruction at the current index
targets the program itself, and the instructions after it decompose
into: a prefix of clean instructions, exactly one instruction targeting
this program whose payload starts with the `FlashLoan3End` selector and
whose trailing `2*N` referenced accounts equal the vaults followed by
the caller token accounts of Begin, and a suffix of clean instructions
(clean: not targeting the program and not referencing its id among its
accounts).  The claim's further assertion that every violation yields a
*returned error* is refuted by `c1_counterexample`: a violating
program-targeted instruction with a payload shorter than 8 bytes (or an
account list shorter than `2*N`) makes Begin panic rather than return. -/
theorem c1_batch_shape (mid : Key) (ixs : List Instruction) (ci : Nat)
    (bA : List Key) :
    checkInstructions mid mid ixs ci bA = .ok ↔
      (∃ cur, ixs.get? ci = some cur ∧ cur.program_id = mid) ∧
      (∃ l1 ix l2, ixs.drop (ci + 1) = l1 ++ ix :: l2 ∧
        (∀ j ∈ l1, j.program_id ≠ mid ∧ mid ∉ j.accounts) ∧
        ix.program_id = mid ∧
        ix.data.take 8 = flash_loan3_end_selector ∧
        ix.accounts.drop (ix.accounts.length - bA.length) = bA ∧
        (∀ j ∈ l2, j.program_id ≠ mid ∧ mid ∉ j.accounts)) :=
  checkInstructions_ok_iff mid ixs ci bA

/-- C1, counterexample to the claim as stated: in a batch whose
follow-up instruction targets the program with a 3-byte payload (so its
selector is certainly not the `FlashLoan3End` selector), the claim
demands that Begin return an error, but `flash_loan3_begin` panics
(the Rust code slices `ix.data[0..8]` out of bounds). -/
theorem c1_counterexample :
    flash_loan3_begin 1 5 5 [⟨5, [], []⟩, ⟨5, [], [1, 2, 3]⟩] 0 [] [] = BeginOut.panic ∧
    BeginOut.panic ≠ BeginOut.err := by decide

/-! ## C9 -/

/-- C9 (amended): if the instruction at the current index targets the
program and some later instruction — the first later one targeting this
program — has a payload of at least 8 bytes whose leading 8 bytes are
not the `FlashLoan3End` selector, the batch-shape verification of
`flash_loan3_begin` terminates with a returned error.  The claim's
"including when the step's payload is shorter than 8 bytes" is refuted
by `c9_counterexample`: a shorter payload panics instead. -/
theorem c9_wrong_selector_err (mid : Key) (bA : List Key) (ixs : List Instruction)
    (ci : Nat) (cur : Instruction) (l1 : List Instruction) (ix : Instruction)
    (l2 : List Instruction)
    (hcur : ixs.get? ci = some cur) (hpid : cur.program_id = mid)
    (hdrop : ixs.drop (ci + 1) = l1 ++ ix :: l2)
    (h1 : ∀ j ∈ l1, j.program_id ≠ mid)
    (h2 : ix.program_id = mid) (h3 : 8 ≤ ix.data.length)
    (h4 : ix.data.take 8 ≠ flash_loan3_end_selector) :
    checkInstructions mid mid ixs ci bA = .err := by
  unfold checkInstructions
  rw [hcur]
  dsimp only
  rw [if_pos hpid, hdrop]
  exact scan_wrong_selector mid bA l1 ix l2 h1 h2 h3 h4

/-- C9 witness: a concrete batch where the paired instruction has an
8-byte payload with a wrong selector; the verification returns an
error. -/
theorem c9_witness :
    checkInstructions 5 5 [⟨5, [], []⟩, ⟨5, [], [9, 9, 9, 9, 9, 9, 9, 9]⟩] 0 [] = BRes.err :=
  c9_wrong_selector_err 5 [] [⟨5, [], []⟩, ⟨5, [], [9, 9, 9, 9, 9, 9, 9, 9]⟩] 0
    ⟨5, [], []⟩ [] ⟨5, [], [9, 9, 9, 9, 9, 9, 9, 9]⟩ []
    rfl rfl rfl (by simp) rfl (by decide) (by decide)

/-- C9, counterexample to the claim as stated: with an empty payload on
the later program-targeted instruction, the verification panics rather
than returning an error. -/
theorem c9_counterexample :
    checkInstructions 5 5 [⟨5, [], []⟩, ⟨5, [], []⟩] 0 [] = BRes.panic ∧
    BRes.panic ≠ BRes.err := by decide

/-! ## C10 -/

/-- C10: `flash_loan3_begin` with an empty loan list requires the
remaining accounts to be empty, mutates nothing and performs no
transfer, but still requires the batch to contain (after the current
top-level instruction, which must target the program) exactly one later
instruction targeting the program with the `FlashLoan3End` selector and
no other later instruction referencing the program id; the trailing
account comparison is vacuous (no constraint on the settlement
instruction's accounts appears in the success condition). -/
theorem c10_zero_loans (g mid : Key) (ixs : List Instruction) (ci : Nat)
    (remaining : List AccountInfo) :
    (∀ store log, flash_loan3_begin g mid mid ixs ci remaining [] = .ok store log →
       remaining = [] ∧ store = [] ∧ log = []) ∧
    ((∃ store log, flash_loan3_begin g mid mid ixs ci remaining [] = .ok store log) ↔
      (remaining = [] ∧
       (∃ cur, ixs.get? ci = some cur ∧ cur.program_id = mid) ∧
       (∃ l1 ix l2, ixs.drop (ci + 1) = l1 ++ ix :: l2 ∧
         (∀ j ∈ l1, j.program_id ≠ mid ∧ mid ∉ j.accounts) ∧
         ix.program_id = mid ∧ ix.data.take 8 = flash_loan3_end_selector ∧
         (∀ j ∈ l2, j.program_id ≠ mid ∧ mid ∉ j.accounts)))) := by
  by_cases hrem : remaining = []
  · subst hrem
    have key : flash_loan3_begin g mid mid ixs ci [] [] =
        (match checkInstructions mid mid ixs ci [] with
         | .ok => .ok [] []
         | .err => .err
         | .panic => .panic) := rfl
    constructor
    · intro store log h
      rw [key] at h
      rcases hc : checkInstructions mid mid ixs ci [] with _ | _ | _ <;>
        simp only [hc] at h
      · cases h; exact ⟨rfl, rfl, rfl⟩
      · cases h
      · cases h
    · constructor
      · rintro ⟨store, log, h⟩
        rw [key] at h
        rcases hc : checkInstructions mid mid ixs ci [] with _ | _ | _ <;>
          simp only [hc] at h
        · rcases (checkInstructions_ok_iff mid ixs ci []).mp hc with
            ⟨hcur, l1, ix, l2, heq, hl1, hpid, hsel, -, hl2⟩
          exact ⟨rfl, hcur, l1, ix, l2, heq, hl1, hpid, hsel, hl2⟩
        · cases h
        · cases h
      · rintro ⟨-, hcur, l1, ix, l2, heq, hl1, hpid, hsel, hl2⟩
        have hok : checkInstructions mid mid ixs ci [] = .ok :=
          (checkInstructions_ok_iff mid ixs ci []).mpr
            ⟨hcur, l1, ix, l2, heq, hl1, hpid, hsel, by simp, hl2⟩
        exact ⟨[], [], by rw [key]; simp only [hok]⟩
  · have hlen : remaining.length ≠ 0 := fun hh => hrem (List.length_eq_zero.mp hh)
    have key : flash_loan3_begin g mid mid ixs ci remaining [] = .err := by
      simp only [flash_loan3_begin, List.length_nil, Nat.mul_zero]
      rw [if_neg hlen]
    constructor
    · intro store log h
      rw [key] at h
      cases h
    · constructor
      · rintro ⟨store, log, h⟩
        rw [key] at h
        cases h
      · rintro ⟨h0, -⟩
        exact absurd h0 hrem

/-- C10 witness: the concrete empty-loan Begin against a well-shaped
two-instruction batch succeeds with no accounts and no transfers. -/
theorem c10_witness :
    (([] : List AccountInfo) = [] ∧ ([] : List AccountInfo) = [] ∧
      ([] : List Transfer) = []) ∧
    (∃ store log,
      flash_loan3_begin 1 5 5 [⟨5, [], []⟩, ⟨5, [7, 8], flash_loan3_end_selector⟩] 0 [] [] =
        .ok store log) :=
  ⟨(c10_zero_loans 1 5 [⟨5, [], []⟩, ⟨5, [7, 8], flash_loan3_end_selector⟩] 0 []).1
      [] [] (by decide),
   (c10_zero_loans 1 5 [⟨5, [], []⟩, ⟨5, [7, 8], flash_loan3_end_selector⟩] 0 []).2.mpr
      ⟨rfl, ⟨⟨5, [], []⟩, rfl, rfl⟩,
       ⟨[], ⟨5, [7, 8], flash_loan3_end_selector⟩, [], rfl, by simp, rfl, rfl, by simp⟩⟩⟩

/-- On a successful Begin, bank slot `i` of the resulting store holds
the original bank with its scratch fields set to the requested amount
and the caller token account's original balance. -/
theorem begin_store_get (g mid : Key) (ixs : List Instruction) (ci : Nat)
    (remaining : List AccountInfo) (amounts : List Nat)
    (store : List AccountInfo) (log : List Transfer)
    (h : flash_loan3_begin g mid mid ixs ci remaining amounts = .ok store log)
    (i : Nat) (hi : i < amounts.length) :
    ∃ k b tk t,
      remaining.get? i = some ⟨k, .bank b⟩ ∧ b.group = g ∧
      remaining.get? (2 * amounts.length + i) = some ⟨tk, .token t⟩ ∧
      store.get? i = some ⟨k, .bank { b with
        flash_loan_approved_amount := amounts.getD i 0,
        flash_loan_vault_initial := t.amount }⟩ := by
  obtain ⟨hlen, bs2, vs2, tks2, hp, hstore, -⟩ :=
    flash_loan3_begin_ok g mid mid ixs ci remaining amounts store log h
  obtain ⟨k, b, vai, tk, t, hb, hg, hvai, hv, ht, hb2⟩ :=
    processLoans_get g amounts _ _ _ _ _ _ _ hp i hi
  have hbl := processLoans_bs_length g amounts _ _ _ _ _ _ _ hp
  refine ⟨k, b, tk, t, ?_, hg, ?_, ?_⟩
  · rw [← get?_take_of_lt remaining amounts.length i hi]; exact hb
  · rw [← get?_drop_add remaining (2 * amounts.length) i]; exact ht
  · have h1 : i < bs2.length := by rw [hbl]; exact hi
    rw [hstore, get?_append_left _ _ _ (by rw [List.length_append]; omega),
      get?_append_left _ _ _ h1]
    exact hb2

/-! ## C6 -/

/-- C6 (amended): on every successful `flash_loan3_begin`, one
vault-to-caller transfer is performed per *strictly positive* requested
amount (a zero amount performs none, so the claim's "exactly N
transfers" fails — see `c6_counterexample`); each bank's
`flash_loan_vault_initial` is set to the caller token account's balance
as read before any transfer and `flash_loan_approved_amount` to the
requested amount; and Begin returns an error whenever some requested
bank's group or recorded vault mismatches the supplied accounts. -/
theorem c6_begin_effects (g mid : Key) (ixs : List Instruction) (ci : Nat)
    (remaining : List AccountInfo) (amounts : List Nat) :
    (∀ store log, flash_loan3_begin g mid mid ixs ci remaining amounts = .ok store log →
       log.length = (amounts.filter (fun a => 0 < a)).length ∧
       ∀ i, i < amounts.length →
         ∃ k b tk t,
           remaining.get? i = some ⟨k, .bank b⟩ ∧ b.group = g ∧
           remaining.get? (2 * amounts.length + i) = some ⟨tk, .token t⟩ ∧
           store.get? i = some ⟨k, .bank { b with
             flash_loan_approved_amount := amounts.getD i 0,
             flash_loan_vault_initial := t.amount }⟩) ∧
    (∀ i k b vai, i < amounts.length →
       remaining.get? i = some ⟨k, .bank b⟩ →
       remaining.get? (amounts.length + i) = some vai →
       (b.group ≠ g ∨ b.vault ≠ vai.key) →
       flash_loan3_begin g mid mid ixs ci remaining amounts = .err) := by
  constructor
  · intro store log h
    obtain ⟨hlen, bs2, vs2, tks2, hp, hstore, -⟩ :=
      flash_loan3_begin_ok g mid mid ixs ci remaining amounts store log h
    refine ⟨processLoans_log_length g amounts _ _ _ _ _ _ _ hp, ?_⟩
    intro i hi
    obtain ⟨k, b, tk, t, hb, hg, ht, hb2⟩ :=
      begin_store_get g mid ixs ci remaining amounts store log h i hi
    exact ⟨k, b, tk, t, hb, hg, ht, hb2⟩
  · intro i k b vai hi hb hvai hbad
    by_cases hl : remaining.length = 3 * amounts.length
    · have hb' : (remaining.take amounts.length).get? i = some ⟨k, .bank b⟩ := by
        rw [get?_take_of_lt remaining amounts.length i hi]; exact hb
      have hvai' : ((remaining.drop amounts.length).take amounts.length).get? i = some vai := by
        rw [get?_take_of_lt _ amounts.length i hi, get?_drop_add]; exact hvai
      have herr := processLoans_mismatch g amounts _ _
        (remaining.drop (2 * amounts.length)) i k b vai hi hb' hvai' hbad
      simp only [flash_loan3_begin]
      rw [if_pos hl, herr]
    · simp only [flash_loan3_begin]
      rw [if_neg hl]

/-- C6, counterexample to the claim as stated: a successful Begin with
one requested amount of 0 performs zero transfers, not one. -/
theorem c6_counterexample :
    flash_loan3_begin 1 5 5
      [⟨5, [], []⟩, ⟨5, [20, 30], flash_loan3_end_selector⟩] 0
      [⟨10, .bank ⟨1, 20, 7, 3, u64Max, 0, 0⟩⟩,
       ⟨20, .token ⟨1, 100⟩⟩, ⟨30, .token ⟨9, 77⟩⟩] [0] =
      .ok [⟨10, .bank ⟨1, 20, 7, 0, 77, 0, 0⟩⟩,
           ⟨20, .token ⟨1, 100⟩⟩, ⟨30, .token ⟨9, 77⟩⟩] [] ∧
    ([] : List Transfer).length ≠ 1 := by decide

/-- C6 witness: the amended theorem applied to a concrete positive-amount
Begin (one transfer) and to a concrete vault-mismatch Begin (error). -/
theorem c6_witness :
    (([⟨20, 30, 40⟩] : List Transfer).length =
      (([40] : List Nat).filter (fun a => 0 < a)).length) ∧
    flash_loan3_begin 1 5 5
      [⟨5, [], []⟩, ⟨5, [20, 30], flash_loan3_end_selector⟩] 0
      [⟨10, .bank ⟨1, 99, 7, 3, u64Max, 0, 0⟩⟩,
       ⟨20, .token ⟨1, 100⟩⟩, ⟨30, .token ⟨9, 77⟩⟩] [40] = .err :=
  ⟨((c6_begin_effects 1 5
      [⟨5, [], []⟩, ⟨5, [20, 30], flash_loan3_end_selector⟩] 0
      [⟨10, .bank ⟨1, 20, 7, 3, u64Max, 0, 0⟩⟩,
       ⟨20, .token ⟨1, 100⟩⟩, ⟨30, .token ⟨9, 77⟩⟩] [40]).1
      [⟨10, .bank ⟨1, 20, 7, 40, 77, 0, 0⟩⟩,
       ⟨20, .token ⟨1, 60⟩⟩, ⟨30, .token ⟨9, 117⟩⟩]
      [⟨20, 30, 40⟩] (by decide)).1,
   (c6_begin_effects 1 5
      [⟨5, [], []⟩, ⟨5, [20, 30], flash_loan3_end_selector⟩] 0
      [⟨10, .bank ⟨1, 99, 7, 3, u64Max, 0, 0⟩⟩,
       ⟨20, .token ⟨1, 100⟩⟩, ⟨30, .token ⟨9, 77⟩⟩] [40]).2
      0 10 ⟨1, 99, 7, 3, u64Max, 0, 0⟩ ⟨20, .token ⟨1, 100⟩⟩
      (by decide) (by decide) (by decide) (Or.inr (by decide))⟩

/-! ## Helper lemmas: the End split point and pipeline -/

theorem firstIdx_eq_some_iff {α : Type} (p : α → Bool) :
    ∀ (l : List α) (n : Nat),
      firstIdx p l = some n ↔
        (∃ x, l.get? n = some x ∧ p x = true) ∧
        ∀ j, j < n → ∃ y, l.get? j = some y ∧ p y = false := by
  intro l
  induction l with
  | nil => intro n; simp [firstIdx]
  | cons x xs ih =>
    intro n
    by_cases hp : p x = true
    · rw [firstIdx, if_pos hp]
      constructor
      · intro h
        cases h
        exact ⟨⟨x, rfl, hp⟩, fun j hj => absurd hj (by omega)⟩
      · rintro ⟨⟨y, hy, hpy⟩, hlt⟩
        cases n with
        | zero => rfl
        | succ n =>
          obtain ⟨z, hz, hpz⟩ := hlt 0 (by omega)
          rw [List.get?_cons_zero] at hz
          cases hz
          exact absurd hp (by simp [hpz])
    · rw [firstIdx, if_neg hp]
      cases n with
      | zero =>
        constructor
        · intro h; simp at h
        · rintro ⟨⟨y, hy, hpy⟩, -⟩
          rw [List.get?_cons_zero] at hy
          cases hy
          exact absurd hpy hp
      | succ n =>
        constructor
        · intro h
          obtain ⟨m, hm, hmn⟩ := Option.map_eq_some'.mp h
          have hm' : firstIdx p xs = some n := by
            have hmeq : m = n := by omega
            rw [← hmeq]; exact hm
          obtain ⟨⟨y, hy, hpy⟩, hlt⟩ := (ih n).mp hm'
          refine ⟨⟨y, by simpa using hy, hpy⟩, ?_⟩
          intro j hj
          cases j with
          | zero => exact ⟨x, rfl, by simpa using hp⟩
          | succ j =>
            obtain ⟨z, hz, hpz⟩ := hlt j (by omega)
            exact ⟨z, by simpa using hz, hpz⟩
        · rintro ⟨⟨y, hy, hpy⟩, hlt⟩
          have hy' : xs.get? n = some y := by simpa using hy
          have hlt' : ∀ j, j < n → ∃ z, xs.get? j = some z ∧ p z = false := by
            intro j hj
            obtain ⟨z, hz, hpz⟩ := hlt (j + 1) (by omega)
            exact ⟨z, by simpa using hz, hpz⟩
          rw [(ih n).mpr ⟨⟨y, hy', hpy⟩, hlt'⟩]
          rfl

theorem get?_some_lt {α : Type} {l : List α} {n : Nat} {a : α}
    (h : l.get? n = some a) : n < l.length := by
  by_contra hge
  rw [List.get?_eq_none.mpr (by omega)] at h
  cases h

theorem get?_set_ne {α : Type} : ∀ (l : List α) (n j : Nat) (a : α), j ≠ n →
    (l.set n a).get? j = l.get? j := by
  intro l
  induction l with
  | nil => intro n j a h; simp
  | cons x xs ih =>
    intro n j a h
    cases n with
    | zero =>
      cases j with
      | zero => exact absurd rfl h
      | succ j => simp
    | succ n =>
      cases j with
      | zero => simp
      | succ j => simpa using ih n j a (by omega)

theorem get?_set_self {α : Type} : ∀ (l : List α) (n : Nat) (a : α), n < l.length →
    (l.set n a).get? n = some a := by
  intro l
  induction l with
  | nil => intro n a h; simp at h
  | cons x xs ih =>
    intro n a h
    cases n with
    | zero => simp
    | succ n => simpa using ih n a (by simp at h; omega)

theorem get?_replicate_lt {α : Type} (a : α) : ∀ (n j : Nat), j < n →
    (List.replicate n a).get? j = some a := by
  intro n
  induction n with
  | zero => intro j h; omega
  | succ n ih =>
    intro j h
    cases j with
    | zero => simp [List.replicate]
    | succ j => simpa [List.replicate] using ih j (by omega)

theorem map_key_set_same : ∀ (l : List AccountInfo) (j : Nat) (k : Key)
    (d d0 : AccountData), l.get? j = some ⟨k, d0⟩ →
    (l.set j ⟨k, d⟩).map (·.key) = l.map (·.key) := by
  intro l
  induction l with
  | nil => intro j k d d0 h; simp
  | cons x xs ih =>
    intro j k d d0 h
    cases j with
    | zero =>
      rw [List.get?_cons_zero] at h
      cases h
      simp
    | succ j =>
      rw [List.get?_cons_succ] at h
      simpa using ih j k d d0 h

theorem get?_map {α β : Type} (f : α → β) : ∀ (l : List α) (n : Nat),
    (l.map f).get? n = (l.get? n).map f := by
  intro l
  induction l with
  | nil => intro n; simp
  | cons x xs ih =>
    intro n
    cases n with
    | zero => simp
    | succ n => rw [List.map_cons, List.get?_cons_succ, List.get?_cons_succ]; exact ih n

theorem firstIdx_isSome_of_mem {α : Type} (p : α → Bool) :
    ∀ (l : List α) (x : α), x ∈ l → p x = true → ∃ j, firstIdx p l = some j := by
  intro l
  induction l with
  | nil => intro x hx; simp at hx
  | cons y ys ih =>
    intro x hx hpx
    by_cases hp : p y = true
    · exact ⟨0, by rw [firstIdx, if_pos hp]⟩
    · rcases List.mem_cons.mp hx with h | h
      · subst h; exact absurd hpx hp
      · obtain ⟨j, hj⟩ := ih x h hpx
        exact ⟨j + 1, by rw [firstIdx, if_neg hp, hj]; rfl⟩

/-- Inversion of one successful `collectStep`: either the bank matched no
vault and the state is unchanged, or it claimed the first vault with its
recorded address, appended one change carrying the bank's health index,
and left vault addresses and list lengths unchanged. -/
theorem collectStep_ok (ow : Key) (i : Nat) (b : Bank) (st st' : CollectState)
    (h : collectStep ow i b st = .ok st') :
    st' = st ∨
    ∃ j c, st'.flags = st.flags.set j true ∧
      st'.vaults.map (·.key) = st.vaults.map (·.key) ∧
      st'.flags.length = st.flags.length ∧
      st'.changes = st.changes ++ [c] ∧ c.bank_index = i ∧
      (st.vaults.map (·.key)).get? j = some b.vault := by
  simp only [collectStep] at h
  rcases hf : firstIdx (fun ai => ai.key == b.vault) st.vaults with _ | j
  · rw [hf] at h
    cases h
    exact Or.inl rfl
  · rw [hf] at h
    dsimp only at h
    obtain ⟨⟨x, hx, hpx⟩, -⟩ := (firstIdx_eq_some_iff _ st.vaults j).mp hf
    have hkey : (st.vaults.map (·.key)).get? j = some b.vault := by
      rw [get?_map, hx]
      simpa using hpx
    rcases hta : st.tokenAccs.get? j with _ | ⟨ck, d⟩
    · rw [hta] at h; dsimp only at h; cases h
    · rw [hta] at h
      rcases d with _ | t | _
      · dsimp only at h; cases h
      · dsimp only at h
        by_cases hs : b.flash_loan_vault_initial = u64Max
        · rw [if_pos hs] at h; cases h
        · rw [if_neg hs] at h
          by_cases hrep : b.flash_loan_vault_initial < t.amount
          · rw [if_pos hrep] at h
            by_cases how : t.owner = ow
            · rw [if_pos how] at h
              rcases hv : st.vaults.get? j with _ | ⟨vk, dv⟩
              · rw [hv] at h; dsimp only at h; cases h
              · rw [hv] at h
                rcases dv with _ | v | _
                · dsimp only at h; cases h
                · dsimp only at h
                  cases h
                  refine Or.inr ⟨j, _, rfl, ?_, by simp, rfl, rfl, hkey⟩
                  exact map_key_set_same st.vaults j vk _ _ hv
                · dsimp only at h; cases h
            · rw [if_neg how] at h; cases h
          · rw [if_neg hrep] at h
            cases h
            exact Or.inr ⟨j, _, rfl, rfl, by simp, rfl, rfl, hkey⟩
      · dsimp only at h; cases h

/-- A bank whose loan marker is the inactive sentinel but whose recorded
vault appears among the vault addresses makes `collectStep` fail. -/
theorem collectStep_sentinel_err (ow : Key) (i : Nat) (b : Bank) (st : CollectState)
    (hs : b.flash_loan_vault_initial = u64Max)
    (hm : b.vault ∈ st.vaults.map (·.key)) :
    ∀ st1, collectStep ow i b st ≠ .ok st1 := by
  intro st1 h
  obtain ⟨x, hx, hkx⟩ := List.mem_map.mp hm
  obtain ⟨j, hj⟩ := firstIdx_isSome_of_mem (fun ai => ai.key == b.vault) st.vaults x hx
    (by simp [hkx])
  simp only [collectStep] at h
  rw [hj] at h
  dsimp only at h
  rcases hta : st.tokenAccs.get? j with _ | ⟨ck, d⟩
  · rw [hta] at h; dsimp only at h; cases h
  · rw [hta] at h
    rcases d with _ | t | _
    · dsimp only at h; cases h
    · dsimp only at h
      rw [if_pos hs] at h; cases h
    · dsimp only at h; cases h

/-- Invariants of the matching loop: vault addresses and the flag-list
length are preserved, and a flag can only become true if some bank in
the processed prefix records that vault's address. -/
theorem collectLoop_flags (ow : Key) : ∀ (l : List AccountInfo) (i : Nat)
    (st st' : CollectState),
    collectLoop ow l i st = .ok st' →
    st'.vaults.map (·.key) = st.vaults.map (·.key) ∧
    st'.flags.length = st.flags.length ∧
    ∀ j, st'.flags.get? j = some true →
      st.flags.get? j = some true ∨
      ∃ ai b, ai ∈ l ∧ ai.data = .bank b ∧
        (st.vaults.map (·.key)).get? j = some b.vault := by
  intro l
  induction l with
  | nil =>
    intro i st st' h
    cases h
    exact ⟨rfl, rfl, fun j hj => Or.inl hj⟩
  | cons ai rest ih =>
    intro i st st' h
    simp only [collectLoop] at h
    rcases hd : ai.data with b | _ | _ <;> rw [hd] at h <;> dsimp only at h
    · rcases hcs : collectStep ow i b st with e | st1
      · rw [hcs] at h; cases h
      · rw [hcs] at h
        dsimp only at h
        obtain ⟨hk1, hf1, hj1⟩ := ih (i + 1) st1 st' h
        rcases collectStep_ok ow i b st st1 hcs with heq | ⟨j0, c, hfl, hk0, hlen0, -, -, hkey0⟩
        · subst heq
          refine ⟨hk1, hf1, ?_⟩
          intro j hj
          rcases hj1 j hj with hh | ⟨ai2, b2, hmem, hdb, hkm⟩
          · exact Or.inl hh
          · exact Or.inr ⟨ai2, b2, by simp [hmem], hdb, hkm⟩
        · refine ⟨hk1.trans hk0, hf1.trans (by rw [hfl]; simp), ?_⟩
          intro j hj
          rcases hj1 j hj with hh | ⟨ai2, b2, hmem, hdb, hkm⟩
          · rw [hfl] at hh
            by_cases hjj : j = j0
            · subst hjj
              exact Or.inr ⟨ai, b, by simp, hd, hkey0⟩
            · rw [get?_set_ne st.flags j0 j true hjj] at hh
              exact Or.inl hh
          · rw [hk0] at hkm
            exact Or.inr ⟨ai2, b2, by simp [hmem], hdb, hkm⟩
    · cases h
      exact ⟨rfl, rfl, fun j hj => Or.inl hj⟩
    · cases h
      exact ⟨rfl, rfl, fun j hj => Or.inl hj⟩

/-- The changes accumulated by the matching loop carry strictly
increasing (hence pairwise distinct) bank indices. -/
theorem collectLoop_changes (ow : Key) : ∀ (l : List AccountInfo) (i : Nat)
    (st st' : CollectState),
    collectLoop ow l i st = .ok st' →
    (∀ c ∈ st.changes, c.bank_index < i) →
    List.Pairwise (fun c d => c.bank_index ≠ d.bank_index) st.changes →
    (∀ c ∈ st'.changes, c.bank_index < i + l.length) ∧
    List.Pairwise (fun c d => c.bank_index ≠ d.bank_index) st'.changes := by
  intro l
  induction l with
  | nil =>
    intro i st st' h hbd hpw
    cases h
    exact ⟨fun c hc => by simpa using hbd c hc, hpw⟩
  | cons ai rest ih =>
    intro i st st' h hbd hpw
    simp only [collectLoop] at h
    rcases hd : ai.data with b | _ | _ <;> rw [hd] at h <;> dsimp only at h
    · rcases hcs : collectStep ow i b st with e | st1
      · rw [hcs] at h; cases h
      · rw [hcs] at h
        dsimp only at h
        rcases collectStep_ok ow i b st st1 hcs with heq | ⟨j0, c, -, -, -, hch, hci, -⟩
        · rw [heq] at h
          obtain ⟨h1, h2⟩ := ih (i + 1) st st' h
            (fun c hc => Nat.lt_succ_of_lt (hbd c hc)) hpw
          exact ⟨fun c hc => by have := h1 c hc; simp at this ⊢; omega, h2⟩
        · have hbd1 : ∀ d ∈ st1.changes, d.bank_index < i + 1 := by
            intro d hd2
            rw [hch] at hd2
            rcases List.mem_append.mp hd2 with hh | hh
            · exact Nat.lt_succ_of_lt (hbd d hh)
            · simp at hh
              subst hh
              omega
          have hpw1 : List.Pairwise (fun c d => c.bank_index ≠ d.bank_index) st1.changes := by
            rw [hch, List.pairwise_append]
            refine ⟨hpw, by simp, ?_⟩
            intro d hd2 e he2
            simp at he2
            subst he2
            rw [hci]
            exact Nat.ne_of_lt (hbd d hd2)
          obtain ⟨h1, h2⟩ := ih (i + 1) st1 st' h hbd1 hpw1
          exact ⟨fun c hc => by have := h1 c hc; simp at this ⊢; omega, h2⟩
    · cases h
      exact ⟨fun c hc => by have := hbd c hc; simp; omega, hpw⟩
    · cases h
      exact ⟨fun c hc => by have := hbd c hc; simp; omega, hpw⟩

/-- A bank in the all-banks prefix whose loan marker is the sentinel and
whose vault is among the vault addresses makes the matching loop fail. -/
theorem collectLoop_sentinel (ow : Key) : ∀ (l1 : List AccountInfo) (ai0 : AccountInfo)
    (l2 : List AccountInfo) (i : Nat) (st : CollectState) (b : Bank),
    (∀ ai ∈ l1, ∃ bb, ai.data = .bank bb) →
    ai0.data = .bank b → b.flash_loan_vault_initial = u64Max →
    b.vault ∈ st.vaults.map (·.key) →
    ∀ st', collectLoop ow (l1 ++ ai0 :: l2) i st ≠ .ok st' := by
  intro l1
  induction l1 with
  | nil =>
    intro ai0 l2 i st b hall hd hs hm st' h
    rw [List.nil_append] at h
    simp only [collectLoop] at h
    rw [hd] at h
    dsimp only at h
    rcases hcs : collectStep ow i b st with e | st1
    · rw [hcs] at h; cases h
    · exact collectStep_sentinel_err ow i b st hs hm st1 hcs
  | cons a l1t ih =>
    intro ai0 l2 i st b hall hd hs hm st' h
    obtain ⟨ba, hba⟩ := hall a (by simp)
    rw [List.cons_append] at h
    simp only [collectLoop] at h
    rw [hba] at h
    dsimp only at h
    rcases hcs : collectStep ow i ba st with e | st1
    · rw [hcs] at h; cases h
    · rw [hcs] at h
      dsimp only at h
      have hm1 : b.vault ∈ st1.vaults.map (·.key) := by
        rcases collectStep_ok ow i ba st st1 hcs with heq | ⟨-, -, -, hk, -, -, -, -⟩
        · rw [heq]; exact hm
        · rw [hk]; exact hm
      exact ih ai0 l2 (i + 1) st1 b (fun ai hai => hall ai (by simp [hai])) hd hs hm1 st' h

/-- Applying one change succeeds only on a bank slot, replaces it by a
bank with cleared scratch fields, and leaves other slots unchanged. -/
theorem applyStep_ok (c : TokenVaultChange) (healths : List AccountInfo)
    (tokens : List TokenPosition) (deacts : List Nat)
    (h2 : List AccountInfo) (t2 : List TokenPosition) (d2 : List Nat)
    (h : applyStep c healths tokens deacts = .ok (h2, t2, d2)) :
    ∃ k b b2, healths.get? c.bank_index = some ⟨k, .bank b⟩ ∧
      h2 = healths.set c.bank_index ⟨k, .bank b2⟩ ∧
      b2.flash_loan_approved_amount = 0 ∧ b2.flash_loan_vault_initial = u64Max := by
  simp only [applyStep] at h
  rcases hb : healths.get? c.bank_index with _ | ⟨k, d⟩
  · rw [hb] at h; dsimp only at h; cases h
  · rw [hb] at h
    rcases d with b | _ | _
    · dsimp only at h
      simp only [Except.ok.injEq, Prod.mk.injEq] at h
      obtain ⟨hh, -, -⟩ := h
      exact ⟨k, b, _, rfl, hh.symm, rfl, rfl⟩
    · dsimp only at h; cases h
    · dsimp only at h; cases h

/-- The apply loop leaves slots whose index is not among the changes
unchanged. -/
theorem applyLoop_frame : ∀ (cs : List TokenVaultChange) (healths : List AccountInfo)
    (tokens : List TokenPosition) (deacts : List Nat)
    (h2 : List AccountInfo) (t2 : List TokenPosition) (d2 : List Nat),
    applyLoop cs healths tokens deacts = .ok (h2, t2, d2) →
    ∀ j, (∀ c ∈ cs, c.bank_index ≠ j) → h2.get? j = healths.get? j := by
  intro cs
  induction cs with
  | nil =>
    intro healths tokens deacts h2 t2 d2 h j hnc
    cases h
    rfl
  | cons c cs ih =>
    intro healths tokens deacts h2 t2 d2 h j hnc
    simp only [applyLoop] at h
    rcases has : applyStep c healths tokens deacts with e | ⟨h1, t1, d1⟩
    · rw [has] at h; cases h
    · rw [has] at h
      dsimp only at h
      obtain ⟨k, b, b2, -, hset, -, -⟩ :=
        applyStep_ok c healths tokens deacts h1 t1 d1 has
      have := ih h1 t1 d1 h2 t2 d2 h j (fun d hd => hnc d (by simp [hd]))
      rw [this, hset]
      exact get?_set_ne healths c.bank_index j _ (Ne.symm (hnc c (by simp)))

/-- After a successful apply loop over changes with pairwise distinct
bank indices, every change's bank slot holds a bank whose scratch
fields are inactive. -/
theorem applyLoop_inactive : ∀ (cs : List TokenVaultChange) (healths : List AccountInfo)
    (tokens : List TokenPosition) (deacts : List Nat)
    (h2 : List AccountInfo) (t2 : List TokenPosition) (d2 : List Nat),
    applyLoop cs healths tokens deacts = .ok (h2, t2, d2) →
    List.Pairwise (fun c d => c.bank_index ≠ d.bank_index) cs →
    ∀ c ∈ cs, ∃ k b2, h2.get? c.bank_index = some ⟨k, .bank b2⟩ ∧
      b2.flash_loan_approved_amount = 0 ∧ b2.flash_loan_vault_initial = u64Max := by
  intro cs
  induction cs with
  | nil =>
    intro healths tokens deacts h2 t2 d2 h hpw c hc
    simp at hc
  | cons c0 cs ih =>
    intro healths tokens deacts h2 t2 d2 h hpw c hc
    simp only [applyLoop] at h
    rcases has : applyStep c0 healths tokens deacts with e | ⟨h1, t1, d1⟩
    · rw [has] at h; cases h
    · rw [has] at h
      dsimp only at h
      obtain ⟨k, b, b2, hbk, hset, hb2a, hb2i⟩ :=
        applyStep_ok c0 healths tokens deacts h1 t1 d1 has
      rcases List.mem_cons.mp hc with hc0 | hcs
      · subst hc0
        have hframe := applyLoop_frame cs h1 t1 d1 h2 t2 d2 h c.bank_index
          (fun d hd => (List.pairwise_cons.mp hpw).1 d hd |>.symm)
        refine ⟨k, b2, ?_, hb2a, hb2i⟩
        rw [hframe, hset]
        exact get?_set_self healths c.bank_index _ (get?_some_lt hbk)
      · exact ih h1 t1 d1 h2 t2 d2 h (List.pairwise_cons.mp hpw).2 c hcs

/-- After the shape checks (not bankrupt, split point found, even
remainder) and with the two loops pinned, `flash_loan3_end` reduces to
the two health checks: Init-mode solvency on the pre-apply state, then
Init-mode solvency on the post-apply state (with positions not yet
deactivated), then the deferred deactivation. -/
theorem flash_loan3_end_run (oracle : HealthType → MangoAccount → List AccountInfo → Rat)
    (acc : MangoAccount) (remaining : List AccountInfo)
    (vi : Nat) (st : CollectState) (healths2 : List AccountInfo)
    (tokens2 : List TokenPosition) (deacts : List Nat)
    (hb : acc.is_bankrupt = 0)
    (hvi : findVaultsIndex acc.group remaining = some vi)
    (hlen : remaining.length = vi + 2 * ((remaining.length - vi) / 2))
    (hcol : collectLoop acc.owner (remaining.take vi) 0
      ⟨acc.tokens, (remaining.drop vi).take ((remaining.length - vi) / 2),
       remaining.drop (vi + (remaining.length - vi) / 2),
       List.replicate ((remaining.length - vi) / 2) false, []⟩ = .ok st)
    (hfl : st.flags.all (fun x => x) = true)
    (happ : applyLoop st.changes (remaining.take vi) st.tokens [] =
      .ok (healths2, tokens2, deacts)) :
    flash_loan3_end oracle acc remaining =
      (if 0 ≤ oracle .init { acc with tokens := st.tokens } (remaining.take vi) then
        (if 0 ≤ oracle .init { acc with tokens := tokens2 } healths2 then
          .ok ({ acc with tokens := deactivateAll deacts tokens2 },
               healths2 ++ st.vaults ++ st.tokenAccs)
        else .error .healthMustBePositive)
      else .error .healthMustBePositive) := by
  simp only [flash_loan3_end]
  rw [if_neg (by simp [hb]), hvi]
  dsimp only
  rw [if_pos hlen]
  simp only [endAfterSplit]
  rw [hcol]
  dsimp only
  rw [if_pos hfl]
  by_cases h1 : 0 ≤ oracle .init { acc with tokens := st.tokens } (remaining.take vi)
  · rw [if_pos h1, if_pos h1, happ]
  · rw [if_neg h1, if_neg h1]

/-! ## C2 -/

/-- C2: `flash_loan3_end` evaluates the solvency oracle twice, both
times in Init (initial-margin) mode — once on the pre-apply state and
once on the post-apply state in which changed positions are still
populated (not yet deactivated) — succeeds exactly when both values are
≥ 0 (returning the account with the deferred deactivations applied),
and returns `HealthMustBePositive` whenever either value is negative. -/
theorem c2_health_checks (oracle : HealthType → MangoAccount → List AccountInfo → Rat)
    (acc : MangoAccount) (remaining : List AccountInfo)
    (vi : Nat) (st : CollectState) (healths2 : List AccountInfo)
    (tokens2 : List TokenPosition) (deacts : List Nat)
    (hb : acc.is_bankrupt = 0)
    (hvi : findVaultsIndex acc.group remaining = some vi)
    (hlen : remaining.length = vi + 2 * ((remaining.length - vi) / 2))
    (hcol : collectLoop acc.owner (remaining.take vi) 0
      ⟨acc.tokens, (remaining.drop vi).take ((remaining.length - vi) / 2),
       remaining.drop (vi + (remaining.length - vi) / 2),
       List.replicate ((remaining.length - vi) / 2) false, []⟩ = .ok st)
    (hfl : st.flags.all (fun x => x) = true)
    (happ : applyLoop st.changes (remaining.take vi) st.tokens [] =
      .ok (healths2, tokens2, deacts)) :
    (flash_loan3_end oracle acc remaining =
        .ok ({ acc with tokens := deactivateAll deacts tokens2 },
             healths2 ++ st.vaults ++ st.tokenAccs) ↔
      (0 ≤ oracle .init { acc with tokens := st.tokens } (remaining.take vi) ∧
       0 ≤ oracle .init { acc with tokens := tokens2 } healths2)) ∧
    ((¬ 0 ≤ oracle .init { acc with tokens := st.tokens } (remaining.take vi) ∨
      ¬ 0 ≤ oracle .init { acc with tokens := tokens2 } healths2) →
      flash_loan3_end oracle acc remaining = .error .healthMustBePositive) := by
  rw [flash_loan3_end_run oracle acc remaining vi st healths2 tokens2 deacts
    hb hvi hlen hcol hfl happ]
  constructor
  · by_cases h1 : 0 ≤ oracle .init { acc with tokens := st.tokens } (remaining.take vi)
    · rw [if_pos h1]
      by_cases h2 : 0 ≤ oracle .init { acc with tokens := tokens2 } healths2
      · rw [if_pos h2]
        simp [h1, h2]
      · rw [if_neg h2]
        constructor
        · intro hh; cases hh
        · rintro ⟨-, hpost⟩; exact absurd hpost h2
    · rw [if_neg h1]
      constructor
      · intro hh; cases hh
      · rintro ⟨hpre, -⟩; exact absurd hpre h1
  · intro hor
    rcases hor with hpre | hpost
    · rw [if_neg hpre]
    · by_cases h1 : 0 ≤ oracle .init { acc with tokens := st.tokens } (remaining.take vi)
      · rw [if_pos h1, if_neg hpost]
      · rw [if_neg h1]

/-- C2 witness: a concrete settlement (zero-amount loan, constant-zero
oracle) where both health checks pass and the zeroed position is
deactivated only in the final state. -/
theorem c2_witness :
    flash_loan3_end (fun _ _ _ => (0 : Rat)) ⟨1, 9, 0, []⟩
      [⟨10, .bank ⟨1, 20, 7, 0, 50, 0, 0⟩⟩,
       ⟨20, .token ⟨1, 100⟩⟩, ⟨30, .token ⟨9, 50⟩⟩] =
      .ok (⟨1, 9, 0, [⟨7, 0, false⟩]⟩,
           [⟨10, .bank ⟨1, 20, 7, 0, u64Max, 0, 0⟩⟩,
            ⟨20, .token ⟨1, 100⟩⟩, ⟨30, .token ⟨9, 50⟩⟩]) :=
  ((c2_health_checks (fun _ _ _ => (0 : Rat)) ⟨1, 9, 0, []⟩
      [⟨10, .bank ⟨1, 20, 7, 0, 50, 0, 0⟩⟩,
       ⟨20, .token ⟨1, 100⟩⟩, ⟨30, .token ⟨9, 50⟩⟩]
      1 ⟨[⟨7, 0, true⟩], [⟨20, .token ⟨1, 100⟩⟩], [⟨30, .token ⟨9, 50⟩⟩], [true], [⟨0, 0, 0⟩]⟩
      [⟨10, .bank ⟨1, 20, 7, 0, u64Max, 0, 0⟩⟩] [⟨7, 0, true⟩] [0]
      rfl (by decide) (by decide) (by decide) (by decide) (by decide)).1).mpr
    ⟨by decide, by decide⟩

/-! ## C3 -/

/-- C3, counterexample to the claim as stated: with approved amount
1000, fee rate 1/100 and a repayment shortfall of 600 (the caller token
account's balance exceeds the recorded initial balance by 400), but a
freshly created position (native balance 0 at apply time), the loan
portion is 1000 — not 600 — so the accrued fee is 10 and the net change
applied to the position is −610, not −606. -/
theorem c3_counterexample :
    flash_loan3_end (fun _ _ _ => (0 : Rat)) ⟨1, 9, 0, []⟩
      [⟨10, .bank ⟨1, 20, 7, 1000, 0, (1 : Rat)/100, 0⟩⟩,
       ⟨20, .token ⟨1, 5000⟩⟩, ⟨30, .token ⟨9, 400⟩⟩] =
      .ok (⟨1, 9, 0, [⟨7, -610, true⟩]⟩,
           [⟨10, .bank ⟨1, 20, 7, 0, u64Max, (1 : Rat)/100, 10⟩⟩,
            ⟨20, .token ⟨1, 5400⟩⟩, ⟨30, .token ⟨9, 0⟩⟩]) ∧
    ((-610 : Rat) ≠ -606 ∧ (10 : Rat) ≠ 6) := by decide

/-- C3 (amended): the scenario additionally fixes the position's native
balance at apply time to 400; then the loan portion is
`1000 - 400 = 600`, the accrued fee is `600 * (1/100) = 6`, and the net
change applied to the position is `-600 - 6 = -606` (the position goes
from 400 to −206, the bank's fee accumulator from 0 to 6). -/
theorem c3_amended_scenario :
    flash_loan3_end (fun _ _ _ => (0 : Rat)) ⟨1, 9, 0, [⟨7, 400, true⟩]⟩
      [⟨10, .bank ⟨1, 20, 7, 1000, 0, (1 : Rat)/100, 0⟩⟩,
       ⟨20, .token ⟨1, 5000⟩⟩, ⟨30, .token ⟨9, 400⟩⟩] =
      .ok (⟨1, 9, 0, [⟨7, -206, true⟩]⟩,
           [⟨10, .bank ⟨1, 20, 7, 0, u64Max, (1 : Rat)/100, 6⟩⟩,
            ⟨20, .token ⟨1, 5400⟩⟩, ⟨30, .token ⟨9, 0⟩⟩]) ∧
    (400 : Rat) + (-606) = -206 ∧ (6 : Rat) = 600 * ((1 : Rat)/100) := by decide

/-! ## C8 -/

/-- C8: `flash_loan3_end` locates the vault segment at the first
remaining account that parses as a token account owned by the margin
account's group (an exact characterization of the split index), errors
with `SomeError` when no such account exists, and errors with
`SomeError` when the accounts from the split point on do not divide
into two equal-length halves. -/
theorem c8_split_point (oracle : HealthType → MangoAccount → List AccountInfo → Rat)
    (acc : MangoAccount) (remaining : List AccountInfo)
    (hb : acc.is_bankrupt = 0) :
    (∀ vi, findVaultsIndex acc.group remaining = some vi ↔
       (∃ ai, remaining.get? vi = some ai ∧ isGroupToken acc.group ai = true) ∧
       ∀ j, j < vi → ∃ ai, remaining.get? j = some ai ∧ isGroupToken acc.group ai = false) ∧
    (findVaultsIndex acc.group remaining = none →
       flash_loan3_end oracle acc remaining = .error .someError) ∧
    (∀ vi, findVaultsIndex acc.group remaining = some vi →
       ¬ 2 ∣ (remaining.length - vi) →
       flash_loan3_end oracle acc remaining = .error .someError) := by
  refine ⟨fun vi => firstIdx_eq_some_iff (isGroupToken acc.group) remaining vi, ?_, ?_⟩
  · intro hnone
    simp only [flash_loan3_end]
    rw [if_neg (by simp [hb]), hnone]
  · intro vi hvi hodd
    have hle : vi ≤ remaining.length := by
      obtain ⟨⟨ai, hai, -⟩, -⟩ :=
        (firstIdx_eq_some_iff (isGroupToken acc.group) remaining vi).mp hvi
      exact Nat.le_of_lt (get?_some_lt hai)
    simp only [flash_loan3_end]
    rw [if_neg (by simp [hb]), hvi]
    dsimp only
    rw [if_neg (by omega)]

/-- C8 witness: a concrete End call with an odd remainder after the
split point errors, and a concrete End call with no group-owned token
account errors. -/
theorem c8_witness :
    flash_loan3_end (fun _ _ _ => (0 : Rat)) ⟨1, 9, 0, []⟩
      [⟨10, .bank ⟨1, 20, 7, 0, 50, 0, 0⟩⟩, ⟨20, .token ⟨1, 100⟩⟩] =
      .error .someError ∧
    flash_loan3_end (fun _ _ _ => (0 : Rat)) ⟨1, 9, 0, []⟩
      [⟨10, .bank ⟨1, 20, 7, 0, 50, 0, 0⟩⟩, ⟨30, .token ⟨2, 100⟩⟩] =
      .error .someError :=
  ⟨(c8_split_point (fun _ _ _ => (0 : Rat)) ⟨1, 9, 0, []⟩
      [⟨10, .bank ⟨1, 20, 7, 0, 50, 0, 0⟩⟩, ⟨20, .token ⟨1, 100⟩⟩] rfl).2.2
      1 (by decide) (by decide),
   (c8_split_point (fun _ _ _ => (0 : Rat)) ⟨1, 9, 0, []⟩
      [⟨10, .bank ⟨1, 20, 7, 0, 50, 0, 0⟩⟩, ⟨30, .token ⟨2, 100⟩⟩] rfl).2.1
      (by decide)⟩

theorem flash_loan3_end_collect_err
    (oracle : HealthType → MangoAccount → List AccountInfo → Rat)
    (acc : MangoAccount) (remaining : List AccountInfo) (vi : Nat) (e : MangoError)
    (hb : acc.is_bankrupt = 0)
    (hvi : findVaultsIndex acc.group remaining = some vi)
    (hlen : remaining.length = vi + 2 * ((remaining.length - vi) / 2))
    (hcol : collectLoop acc.owner (remaining.take vi) 0
      ⟨acc.tokens, (remaining.drop vi).take ((remaining.length - vi) / 2),
       remaining.drop (vi + (remaining.length - vi) / 2),
       List.replicate ((remaining.length - vi) / 2) false, []⟩ = .error e) :
    flash_loan3_end oracle acc remaining = .error e := by
  simp only [flash_loan3_end]
  rw [if_neg (by simp [hb]), hvi]
  dsimp only
  rw [if_pos hlen]
  simp only [endAfterSplit]
  rw [hcol]

theorem flash_loan3_end_flags_err
    (oracle : HealthType → MangoAccount → List AccountInfo → Rat)
    (acc : MangoAccount) (remaining : List AccountInfo) (vi : Nat) (st : CollectState)
    (hb : acc.is_bankrupt = 0)
    (hvi : findVaultsIndex acc.group remaining = some vi)
    (hlen : remaining.length = vi + 2 * ((remaining.length - vi) / 2))
    (hcol : collectLoop acc.owner (remaining.take vi) 0
      ⟨acc.tokens, (remaining.drop vi).take ((remaining.length - vi) / 2),
       remaining.drop (vi + (remaining.length - vi) / 2),
       List.replicate ((remaining.length - vi) / 2) false, []⟩ = .ok st)
    (hfl : st.flags.all (fun x => x) = false) :
    flash_loan3_end oracle acc remaining = .error .someError := by
  simp only [flash_loan3_end]
  rw [if_neg (by simp [hb]), hvi]
  dsimp only
  rw [if_pos hlen]
  simp only [endAfterSplit]
  rw [hcol]
  dsimp only
  rw [if_neg (by simp [hfl])]

/-! ## C7 -/

/-- C7: after the shape checks, `flash_loan3_end` fails whenever some
vault in the vault segment has its address recorded by no bank of the
health prefix (the `vaults_with_banks` require), and fails whenever a
bank in the all-banks prefix of the health accounts records a vault of
the segment but has the inactive sentinel in `flash_loan_vault_initial`
(the loan-not-active require). -/
theorem c7_end_matching_guards
    (oracle : HealthType → MangoAccount → List AccountInfo → Rat)
    (acc : MangoAccount) (remaining : List AccountInfo) (vi : Nat)
    (hb : acc.is_bankrupt = 0)
    (hvi : findVaultsIndex acc.group remaining = some vi)
    (hlen : remaining.length = vi + 2 * ((remaining.length - vi) / 2)) :
    (∀ j vai, ((remaining.drop vi).take ((remaining.length - vi) / 2)).get? j = some vai →
       (∀ ai ∈ remaining.take vi, ∀ b2, ai.data = .bank b2 → b2.vault ≠ vai.key) →
       ∃ e, flash_loan3_end oracle acc remaining = .error e) ∧
    (∀ l1 ai0 l2 b2, remaining.take vi = l1 ++ ai0 :: l2 →
       (∀ ai ∈ l1, ∃ bb, ai.data = .bank bb) →
       ai0.data = .bank b2 → b2.flash_loan_vault_initial = u64Max →
       b2.vault ∈ ((remaining.drop vi).take ((remaining.length - vi) / 2)).map (·.key) →
       ∃ e, flash_loan3_end oracle acc remaining = .error e) := by
  constructor
  · intro j vai hvai hnob
    rcases hcol : collectLoop acc.owner (remaining.take vi) 0
        ⟨acc.tokens, (remaining.drop vi).take ((remaining.length - vi) / 2),
         remaining.drop (vi + (remaining.length - vi) / 2),
         List.replicate ((remaining.length - vi) / 2) false, []⟩ with e | st
    · exact ⟨e, flash_loan3_end_collect_err oracle acc remaining vi e hb hvi hlen hcol⟩
    · obtain ⟨hk, hflen, hjust⟩ := collectLoop_flags acc.owner (remaining.take vi) 0 _ st hcol
      have hjlt : j < ((remaining.drop vi).take ((remaining.length - vi) / 2)).length :=
        get?_some_lt hvai
      have hjfl : j < st.flags.length := by
        rw [hflen]
        show j < (List.replicate ((remaining.length - vi) / 2) false).length
        simp only [List.length_replicate]
        simp only [List.length_take, List.length_drop] at hjlt
        omega
      rcases hx : st.flags.get? j with _ | x
      · exact absurd (List.get?_eq_none.mp hx) (by omega)
      · have hxf : x = false := by
          cases x
          · rfl
          · exfalso
            rcases hjust j hx with hh | ⟨ai2, b2, hmem, hdb, hkm⟩
            · replace hh : (List.replicate ((remaining.length - vi) / 2) false).get? j =
                  some true := hh
              rw [get?_replicate_lt false ((remaining.length - vi) / 2) j (by
                simp only [List.length_take, List.length_drop] at hjlt; omega)] at hh
              cases hh
            · replace hkm : (((remaining.drop vi).take ((remaining.length - vi) / 2)).map
                  (·.key)).get? j = some b2.vault := hkm
              rw [get?_map, hvai] at hkm
              simp at hkm
              exact hnob ai2 hmem b2 hdb hkm.symm
        subst hxf
        have hfl : st.flags.all (fun x => x) = false := by
          cases hall : st.flags.all (fun x => x)
          · rfl
          · exfalso
            have := List.all_eq_true.mp hall false (List.get?_mem hx)
            simp at this
        exact ⟨.someError,
          flash_loan3_end_flags_err oracle acc remaining vi st hb hvi hlen hcol hfl⟩
  · intro l1 ai0 l2 b2 hdec hall hd hs hmem
    rcases hcol : collectLoop acc.owner (remaining.take vi) 0
        ⟨acc.tokens, (remaining.drop vi).take ((remaining.length - vi) / 2),
         remaining.drop (vi + (remaining.length - vi) / 2),
         List.replicate ((remaining.length - vi) / 2) false, []⟩ with e | st
    · exact ⟨e, flash_loan3_end_collect_err oracle acc remaining vi e hb hvi hlen hcol⟩
    · exfalso
      rw [hdec] at hcol
      exact collectLoop_sentinel acc.owner l1 ai0 l2 0 _ b2 hall hd hs hmem st hcol

/-- C7 witness: a concrete End whose vault matches no bank errors, and a
concrete End whose matching bank carries the inactive sentinel errors. -/
theorem c7_witness :
    (∃ e, flash_loan3_end (fun _ _ _ => (0 : Rat)) ⟨1, 9, 0, []⟩
      [⟨10, .bank ⟨1, 99, 7, 0, 50, 0, 0⟩⟩,
       ⟨20, .token ⟨1, 100⟩⟩, ⟨30, .token ⟨9, 50⟩⟩] = .error e) ∧
    (∃ e, flash_loan3_end (fun _ _ _ => (0 : Rat)) ⟨1, 9, 0, []⟩
      [⟨10, .bank ⟨1, 20, 7, 0, u64Max, 0, 0⟩⟩,
       ⟨20, .token ⟨1, 100⟩⟩, ⟨30, .token ⟨9, 50⟩⟩] = .error e) :=
  ⟨(c7_end_matching_guards (fun _ _ _ => (0 : Rat)) ⟨1, 9, 0, []⟩
      [⟨10, .bank ⟨1, 99, 7, 0, 50, 0, 0⟩⟩,
       ⟨20, .token ⟨1, 100⟩⟩, ⟨30, .token ⟨9, 50⟩⟩] 1 rfl (by decide) (by decide)).1
      0 ⟨20, .token ⟨1, 100⟩⟩ (by decide)
      (by
        intro ai hai b2 hdb
        simp at hai
        subst hai
        simp at hdb
        subst hdb
        decide),
   (c7_end_matching_guards (fun _ _ _ => (0 : Rat)) ⟨1, 9, 0, []⟩
      [⟨10, .bank ⟨1, 20, 7, 0, u64Max, 0, 0⟩⟩,
       ⟨20, .token ⟨1, 100⟩⟩, ⟨30, .token ⟨9, 50⟩⟩] 1 rfl (by decide) (by decide)).2
      [] ⟨10, .bank ⟨1, 20, 7, 0, u64Max, 0, 0⟩⟩ [] ⟨1, 20, 7, 0, u64Max, 0, 0⟩
      (by decide) (by simp) rfl rfl (by decide)⟩

/-! ## C5 -/

/-- C5 (amended): a successful `flash_loan3_end` leaves every bank it
matched to a vault (every bank recorded in a change) with both scratch
fields inactive, regardless of how much was repaid; a successful
`flash_loan3_begin` records `(requested amount, caller balance)` in the
touched bank's scratch fields — a pair that is a mixed state (neither
both-inactive nor both-active) when the requested amount is zero with a
balance different from the sentinel (see `c5_counterexample`), or when
the balance equals the sentinel with a positive amount. -/
theorem c5_scratch_invariant :
    (∀ (oracle : HealthType → MangoAccount → List AccountInfo → Rat)
       (acc : MangoAccount) (remaining : List AccountInfo) (vi : Nat)
       (st : CollectState) (healths2 : List AccountInfo) (tokens2 : List TokenPosition)
       (deacts : List Nat) (out : MangoAccount × List AccountInfo),
       acc.is_bankrupt = 0 →
       findVaultsIndex acc.group remaining = some vi →
       remaining.length = vi + 2 * ((remaining.length - vi) / 2) →
       collectLoop acc.owner (remaining.take vi) 0
         ⟨acc.tokens, (remaining.drop vi).take ((remaining.length - vi) / 2),
          remaining.drop (vi + (remaining.length - vi) / 2),
          List.replicate ((remaining.length - vi) / 2) false, []⟩ = .ok st →
       applyLoop st.changes (remaining.take vi) st.tokens [] = .ok (healths2, tokens2, deacts) →
       flash_loan3_end oracle acc remaining = .ok out →
       ∀ c ∈ st.changes, ∃ k b2, healths2.get? c.bank_index = some ⟨k, .bank b2⟩ ∧
         b2.flash_loan_approved_amount = 0 ∧ b2.flash_loan_vault_initial = u64Max) ∧
    (∀ (g mid : Key) (ixs : List Instruction) (ci : Nat) (remaining : List AccountInfo)
       (amounts : List Nat) (store : List AccountInfo) (log : List Transfer) (i : Nat),
       flash_loan3_begin g mid mid ixs ci remaining amounts = .ok store log →
       i < amounts.length →
       ∃ k b tk t, remaining.get? i = some ⟨k, .bank b⟩ ∧
         remaining.get? (2 * amounts.length + i) = some ⟨tk, .token t⟩ ∧
         store.get? i = some ⟨k, .bank { b with
           flash_loan_approved_amount := amounts.getD i 0,
           flash_loan_vault_initial := t.amount }⟩) := by
  constructor
  · intro oracle acc remaining vi st healths2 tokens2 deacts out hb hvi hlen hcol happ _hend
    have hpw := collectLoop_changes acc.owner (remaining.take vi) 0 _ st hcol
      (by intro c hc; simp at hc) (by simp)
    exact applyLoop_inactive st.changes (remaining.take vi) st.tokens [] healths2 tokens2
      deacts happ hpw.2
  · intro g mid ixs ci remaining amounts store log i h hi
    obtain ⟨k, b, tk, t, hb, -, ht, hb2⟩ :=
      begin_store_get g mid ixs ci remaining amounts store log h i hi
    exact ⟨k, b, tk, t, hb, ht, hb2⟩

/-- C5, counterexample to the claim as stated: a successful Begin for a
zero requested amount records `approved_amount = 0` together with
`vault_initial = 77 ≠ u64::MAX` — a state that is neither both-inactive
nor both-active. -/
theorem c5_counterexample :
    flash_loan3_begin 1 5 5
      [⟨5, [], []⟩, ⟨5, [21, 31], flash_loan3_end_selector⟩] 0
      [⟨11, .bank ⟨1, 21, 8, 3, u64Max, 0, 0⟩⟩,
       ⟨21, .token ⟨1, 100⟩⟩, ⟨31, .token ⟨9, 77⟩⟩] [0] =
      .ok [⟨11, .bank ⟨1, 21, 8, 0, 77, 0, 0⟩⟩,
           ⟨21, .token ⟨1, 100⟩⟩, ⟨31, .token ⟨9, 77⟩⟩] [] ∧
    ¬ scratchConsistent ⟨1, 21, 8, 0, 77, 0, 0⟩ := by decide

/-- C5 witness: the End part applied to a concrete settlement (matched
bank left inactive) and the Begin part applied to a concrete
positive-amount Begin. -/
theorem c5_witness :
    (∀ c ∈ ([⟨0, 0, 0⟩] : List TokenVaultChange),
       ∃ k b2, ([⟨10, .bank ⟨1, 20, 7, 0, u64Max, 0, 0⟩⟩] : List AccountInfo).get?
           c.bank_index = some ⟨k, .bank b2⟩ ∧
         b2.flash_loan_approved_amount = 0 ∧ b2.flash_loan_vault_initial = u64Max) ∧
    (∃ k b tk t,
       ([⟨10, .bank ⟨1, 20, 7, 3, u64Max, 0, 0⟩⟩, ⟨20, .token ⟨1, 100⟩⟩,
         ⟨30, .token ⟨9, 77⟩⟩] : List AccountInfo).get? 0 = some ⟨k, .bank b⟩ ∧
       ([⟨10, .bank ⟨1, 20, 7, 3, u64Max, 0, 0⟩⟩, ⟨20, .token ⟨1, 100⟩⟩,
         ⟨30, .token ⟨9, 77⟩⟩] : List AccountInfo).get? (2 * 1 + 0) = some ⟨tk, .token t⟩ ∧
       ([⟨10, .bank ⟨1, 20, 7, 40, 77, 0, 0⟩⟩, ⟨20, .token ⟨1, 60⟩⟩,
         ⟨30, .token ⟨9, 117⟩⟩] : List AccountInfo).get? 0 = some ⟨k, .bank { b with
           flash_loan_approved_amount := ([40] : List Nat).getD 0 0,
           flash_loan_vault_initial := t.amount }⟩) :=
  ⟨c5_scratch_invariant.1 (fun _ _ _ => (0 : Rat)) ⟨1, 9, 0, []⟩
      [⟨10, .bank ⟨1, 20, 7, 0, 50, 0, 0⟩⟩, ⟨20, .token ⟨1, 100⟩⟩, ⟨30, .token ⟨9, 50⟩⟩]
      1 ⟨[⟨7, 0, true⟩], [⟨20, .token ⟨1, 100⟩⟩], [⟨30, .token ⟨9, 50⟩⟩], [true], [⟨0, 0, 0⟩]⟩
      [⟨10, .bank ⟨1, 20, 7, 0, u64Max, 0, 0⟩⟩] [⟨7, 0, true⟩] [0]
      (⟨1, 9, 0, [⟨7, 0, false⟩]⟩,
       [⟨10, .bank ⟨1, 20, 7, 0, u64Max, 0, 0⟩⟩, ⟨20, .token ⟨1, 100⟩⟩, ⟨30, .token ⟨9, 50⟩⟩])
      rfl (by decide) (by decide) (by decide) (by decide) (by decide),
   c5_scratch_invariant.2 1 5
      [⟨5, [], []⟩, ⟨5, [20, 30], flash_loan3_end_selector⟩] 0
      [⟨10, .bank ⟨1, 20, 7, 3, u64Max, 0, 0⟩⟩, ⟨20, .token ⟨1, 100⟩⟩, ⟨30, .token ⟨9, 77⟩⟩]
      [40]
      [⟨10, .bank ⟨1, 20, 7, 40, 77, 0, 0⟩⟩, ⟨20, .token ⟨1, 60⟩⟩, ⟨30, .token ⟨9, 117⟩⟩]
      [⟨20, 30, 40⟩] 0 (by decide) (by decide)⟩

theorem ite_ok_inv {α : Type} (c1 c2 : Prop) [Decidable c1] [Decidable c2]
    (X : α) (e1 e2 : MangoError) (out : α)
    (h : (if c1 then (if c2 then Except.ok X else Except.error e1)
          else Except.error e2) = Except.ok out) : out = X := by
  by_cases h1 : c1
  · rw [if_pos h1] at h
    by_cases h2 : c2
    · rw [if_pos h2] at h
      cases h
      rfl
    · rw [if_neg h2] at h
      cases h
  · rw [if_neg h1] at h
    cases h

/-! ## C4 -/

/-- C4, counterexample to the claim as stated: Begin with amount 1000
(initial balance 50), full repayment (caller balance 1050 = 50 + 1000,
no shortfall), fee rate 1/100, position native balance 0 before Begin:
the net change is 0 but the loan portion is 1000, so a fee of 10 is
charged and the position ends at −10 ≠ 0 — not its pre-Begin value. -/
theorem c4_counterexample :
    flash_loan3_end (fun _ _ _ => (0 : Rat)) ⟨1, 9, 0, [⟨7, 0, true⟩]⟩
      [⟨10, .bank ⟨1, 20, 7, 1000, 50, (1 : Rat)/100, 0⟩⟩,
       ⟨20, .token ⟨1, 5000⟩⟩, ⟨30, .token ⟨9, 1050⟩⟩] =
      .ok (⟨1, 9, 0, [⟨7, -10, true⟩]⟩,
           [⟨10, .bank ⟨1, 20, 7, 0, u64Max, (1 : Rat)/100, 10⟩⟩,
            ⟨20, .token ⟨1, 6000⟩⟩, ⟨30, .token ⟨9, 50⟩⟩]) ∧
    (-10 : Rat) ≠ 0 := by decide

/-- C4 (amended): a Begin with amount `A` followed in the same batch by
an End at which the caller token account's balance exceeds the recorded
initial balance by exactly `A` (full repayment) produces a net change of
zero, so the position's native balance moves from its pre-Begin value
`native0` (Begin never touches positions) by exactly the origination
fee: it ends at `native0 - loan * rate`, where `loan` is
`max (A - native0) 0` for positive balances and `A` otherwise; the
bank's scratch fields are left inactive; and whenever the loan portion
is zero the fee is zero and the balance is exactly unchanged.  (The
balance is unchanged only when the fee vanishes — see
`c4_counterexample`.) -/
theorem c4_roundtrip (gk ownK bk vk ck : Key) (ti : Nat) (A b0 vAmt : Nat)
    (native0 rate fees0 : Rat)
    (oracle : HealthType → MangoAccount → List AccountInfo → Rat)
    (out : MangoAccount × List AccountInfo)
    (hinit : b0 ≠ u64Max)
    (hend : flash_loan3_end oracle ⟨gk, ownK, 0, [⟨ti, native0, true⟩]⟩
      [⟨bk, .bank ⟨gk, vk, ti, A, b0, rate, fees0⟩⟩,
       ⟨vk, .token ⟨gk, vAmt⟩⟩, ⟨ck, .token ⟨ownK, b0 + A⟩⟩] = .ok out) :
    (out.1.tokens.getD 0 ⟨0, 0, false⟩).native =
      native0 - (if 0 < native0 then ratMax ((A : Rat) - native0) 0 else (A : Rat)) * rate ∧
    (∃ b2, out.2.get? 0 = some ⟨bk, .bank b2⟩ ∧
      b2.flash_loan_approved_amount = 0 ∧ b2.flash_loan_vault_initial = u64Max) ∧
    ((if 0 < native0 then ratMax ((A : Rat) - native0) 0 else (A : Rat)) = 0 →
      (if 0 < native0 then ratMax ((A : Rat) - native0) 0 else (A : Rat)) * rate = 0 ∧
      (out.1.tokens.getD 0 ⟨0, 0, false⟩).native = native0) := by
  have hcs : collectStep ownK 0 ⟨gk, vk, ti, A, b0, rate, fees0⟩
      ⟨[⟨ti, native0, true⟩], [⟨vk, .token ⟨gk, vAmt⟩⟩], [⟨ck, .token ⟨ownK, b0 + A⟩⟩],
       [false], []⟩ =
      .ok ⟨[⟨ti, native0, true⟩], [⟨vk, .token ⟨gk, vAmt + A⟩⟩], [⟨ck, .token ⟨ownK, b0⟩⟩],
           [true], [⟨0, 0, 0⟩]⟩ := by
    rcases Nat.eq_zero_or_pos A with hA | hA
    · subst hA
      simp [collectStep, firstIdx, get_mut_or_create, hinit]
    · simp [collectStep, firstIdx, get_mut_or_create, hinit, hA,
        Nat.add_sub_cancel_left, Nat.add_sub_cancel, neg_add_cancel,
        lt_add_iff_pos_right]
  have hcol : collectLoop ownK [⟨bk, .bank ⟨gk, vk, ti, A, b0, rate, fees0⟩⟩] 0
      ⟨[⟨ti, native0, true⟩], [⟨vk, .token ⟨gk, vAmt⟩⟩], [⟨ck, .token ⟨ownK, b0 + A⟩⟩],
       [false], []⟩ =
      .ok ⟨[⟨ti, native0, true⟩], [⟨vk, .token ⟨gk, vAmt + A⟩⟩], [⟨ck, .token ⟨ownK, b0⟩⟩],
           [true], [⟨0, 0, 0⟩]⟩ := by
    simp only [collectLoop, hcs]
  have happs : applyStep ⟨0, 0, 0⟩ [⟨bk, .bank ⟨gk, vk, ti, A, b0, rate, fees0⟩⟩]
      [⟨ti, native0, true⟩] [] =
      .ok ([⟨bk, .bank ⟨gk, vk, ti, 0, u64Max, rate,
              fees0 + (if 0 < native0 then ratMax ((A : Rat) - native0) 0 else (A : Rat)) *
                rate⟩⟩],
           [⟨ti, native0 + (0 -
              (if 0 < native0 then ratMax ((A : Rat) - native0) 0 else (A : Rat)) * rate),
             true⟩],
           if native0 + (0 -
              (if 0 < native0 then ratMax ((A : Rat) - native0) 0 else (A : Rat)) * rate) = 0
           then [0] else []) := by
    simp [applyStep]
  have happ : applyLoop [⟨0, 0, 0⟩] [⟨bk, .bank ⟨gk, vk, ti, A, b0, rate, fees0⟩⟩]
      [⟨ti, native0, true⟩] [] =
      .ok ([⟨bk, .bank ⟨gk, vk, ti, 0, u64Max, rate,
              fees0 + (if 0 < native0 then ratMax ((A : Rat) - native0) 0 else (A : Rat)) *
                rate⟩⟩],
           [⟨ti, native0 + (0 -
              (if 0 < native0 then ratMax ((A : Rat) - native0) 0 else (A : Rat)) * rate),
             true⟩],
           if native0 + (0 -
              (if 0 < native0 then ratMax ((A : Rat) - native0) 0 else (A : Rat)) * rate) = 0
           then [0] else []) := by
    simp only [applyLoop, happs]
  have hcol2 : collectLoop
      (MangoAccount.owner ⟨gk, ownK, 0, [⟨ti, native0, true⟩]⟩)
      (List.take 1 [⟨bk, .bank ⟨gk, vk, ti, A, b0, rate, fees0⟩⟩,
        ⟨vk, .token ⟨gk, vAmt⟩⟩, ⟨ck, .token ⟨ownK, b0 + A⟩⟩]) 0
      ⟨MangoAccount.tokens ⟨gk, ownK, 0, [⟨ti, native0, true⟩]⟩,
       (List.drop 1 [⟨bk, .bank ⟨gk, vk, ti, A, b0, rate, fees0⟩⟩,
         ⟨vk, .token ⟨gk, vAmt⟩⟩, ⟨ck, .token ⟨ownK, b0 + A⟩⟩]).take
         (((3 : Nat) - 1) / 2),
       List.drop (1 + ((3 : Nat) - 1) / 2)
         [⟨bk, .bank ⟨gk, vk, ti, A, b0, rate, fees0⟩⟩,
          ⟨vk, .token ⟨gk, vAmt⟩⟩, ⟨ck, .token ⟨ownK, b0 + A⟩⟩],
       List.replicate (((3 : Nat) - 1) / 2) false, []⟩ =
      .ok ⟨[⟨ti, native0, true⟩], [⟨vk, .token ⟨gk, vAmt + A⟩⟩], [⟨ck, .token ⟨ownK, b0⟩⟩],
           [true], [⟨0, 0, 0⟩]⟩ := hcol
  rw [flash_loan3_end_run oracle ⟨gk, ownK, 0, [⟨ti, native0, true⟩]⟩
      [⟨bk, .bank ⟨gk, vk, ti, A, b0, rate, fees0⟩⟩,
       ⟨vk, .token ⟨gk, vAmt⟩⟩, ⟨ck, .token ⟨ownK, b0 + A⟩⟩] 1
      ⟨[⟨ti, native0, true⟩], [⟨vk, .token ⟨gk, vAmt + A⟩⟩], [⟨ck, .token ⟨ownK, b0⟩⟩],
       [true], [⟨0, 0, 0⟩]⟩
      _ _ _ rfl (by simp [findVaultsIndex, firstIdx, isGroupToken]) (by simp) hcol2 rfl happ] at hend
  have hout := ite_ok_inv _ _ _ _ _ _ hend
  subst hout
  have hnat : ((deactivateAll
          (if native0 + (0 -
              (if 0 < native0 then ratMax ((A : Rat) - native0) 0 else (A : Rat)) * rate) = 0
           then [0] else [])
          [⟨ti, native0 + (0 -
              (if 0 < native0 then ratMax ((A : Rat) - native0) 0 else (A : Rat)) * rate),
            true⟩]).getD 0 ⟨0, 0, false⟩).native =
          native0 -
            (if 0 < native0 then ratMax ((A : Rat) - native0) 0 else (A : Rat)) * rate := by
    by_cases hz : native0 + (0 -
        (if 0 < native0 then ratMax ((A : Rat) - native0) 0 else (A : Rat)) * rate) = 0
    · rw [if_pos hz]
      simp [deactivateAll]
      ring
    · rw [if_neg hz]
      simp [deactivateAll]
      ring
  refine ⟨hnat, ⟨_, rfl, rfl, rfl⟩, ?_⟩
  intro h0
  refine ⟨by rw [h0, zero_mul], ?_⟩
  rw [hnat, h0, zero_mul, sub_zero]

/-- Witness for `c4_roundtrip`: the concrete scenario with loan amount 1000,
initial token-account balance 50, vault balance 5000, starting native position 0
and fee rate 1/100; the roundtrip leaves the position at `0 - 1000 * (1/100)`. -/
theorem c4_witness :
    (50 : Nat) ≠ u64Max ∧
    flash_loan3_end (fun _ _ _ => 0) ⟨1, 9, 0, [⟨7, 0, true⟩]⟩
      [⟨10, .bank ⟨1, 20, 7, 1000, 50, 1/100, 0⟩⟩,
       ⟨20, .token ⟨1, 5000⟩⟩, ⟨30, .token ⟨9, 1050⟩⟩] =
      .ok ⟨⟨1, 9, 0, [⟨7, -10, true⟩]⟩,
        [⟨10, .bank ⟨1, 20, 7, 0, u64Max, 1/100, 10⟩⟩,
         ⟨20, .token ⟨1, 6000⟩⟩, ⟨30, .token ⟨9, 50⟩⟩]⟩ ∧
    ((⟨⟨1, 9, 0, [⟨7, -10, true⟩]⟩,
        [⟨10, .bank ⟨1, 20, 7, 0, u64Max, 1/100, 10⟩⟩,
         ⟨20, .token ⟨1, 6000⟩⟩, ⟨30, .token ⟨9, 50⟩⟩]⟩ :
        MangoAccount × List AccountInfo).1.tokens.getD 0 ⟨0, 0, false⟩).native =
      0 - (if (0 : Rat) < 0 then ratMax (((1000 : Nat) : Rat) - 0) 0
           else ((1000 : Nat) : Rat)) * (1 / 100) := by
  have hend : flash_loan3_end (fun _ _ _ => 0) ⟨1, 9, 0, [⟨7, 0, true⟩]⟩
      [⟨10, .bank ⟨1, 20, 7, 1000, 50, 1/100, 0⟩⟩,
       ⟨20, .token ⟨1, 5000⟩⟩, ⟨30, .token ⟨9, 1050⟩⟩] =
      .ok ⟨⟨1, 9, 0, [⟨7, -10, true⟩]⟩,
        [⟨10, .bank ⟨1, 20, 7, 0, u64Max, 1/100, 10⟩⟩,
         ⟨20, .token ⟨1, 6000⟩⟩, ⟨30, .token ⟨9, 50⟩⟩]⟩ := by decide
  exact ⟨by decide, hend,
    (c4_roundtrip 1 9 10 20 30 7 1000 50 5000 0 (1/100) 0 (fun _ _ _ => 0) _
      (by decide) hend).1⟩

end FlashLoan3
